import Mathlib

/-!
Verification of the stile-css core pipeline: a shallow embedding of the
parser delimiter handlers, the tree transformer with its mutable block
view, and the renderer, together with theorems settling the frozen
claims about the implementation.

JavaScript strings are modelled as Lean `String`; the handful of string
operations the code uses (`trim`, `startsWith`, `includes`, `join`,
regex-based replacement) are given explicit executable definitions over
the character list so that every theorem can be evaluated on concrete
inputs.
-/

namespace StileCss

/-- Decidable equality of `Except` results, used to evaluate theorems on
concrete inputs. -/
instance {e a : Type} [DecidableEq e] [DecidableEq a] : DecidableEq (Except e a) :=
  fun x y =>
    match x, y with
    | .error e1, .error e2 =>
      if h : e1 = e2 then .isTrue (by rw [h])
      else .isFalse (by intro hc; injection hc; exact h (by assumption))
    | .ok v1, .ok v2 =>
      if h : v1 = v2 then .isTrue (by rw [h])
      else .isFalse (by intro hc; injection hc; exact h (by assumption))
    | .error _, .ok _ => .isFalse (by intro hc; exact Except.noConfusion hc)
    | .ok _, .error _ => .isFalse (by intro hc; exact Except.noConfusion hc)

/-! ### String helpers -/

/-- Whitespace characters removed by `String.prototype.trim` that can occur
in CSS source handled here (space, tab, newline, carriage return). -/
def isWhitespaceChar (c : Char) : Bool :=
  c == ' ' || c == '\t' || c == '\n' || c == '\r'

/-- `trim` of a JavaScript string: strip whitespace from both ends. -/
def strTrim (s : String) : String :=
  String.mk (((s.data.dropWhile isWhitespaceChar).reverse.dropWhile isWhitespaceChar).reverse)

/-- `s.startsWith(p)` of JavaScript. -/
def strStartsWith (s p : String) : Bool :=
  p.data.isPrefixOf s.data

/-- Does `needle` occur as a contiguous run inside the haystack? -/
def charsContain (needle : List Char) : List Char → Bool
  | [] => needle.isEmpty
  | c :: cs => needle.isPrefixOf (c :: cs) || charsContain needle cs

/-- `s.includes(p)` of JavaScript: substring containment. -/
def strIncludes (s p : String) : Bool :=
  charsContain p.data s.data

/-- `list.join(sep)` of JavaScript. -/
def strIntercalate (sep : String) : List String → String
  | [] => ""
  | [x] => x
  | x :: xs => x ++ sep ++ strIntercalate sep xs

/-- `list.join('')` of JavaScript: plain concatenation. -/
def strJoin (l : List String) : String :=
  strIntercalate "" l

/-- `selector.replace(/&/g, parent)` on the character list: every
occurrence of `&` is replaced by the parent string (the replacement is
not rescanned, matching the left-to-right regex replacement). -/
def replaceAmp (parent : String) : List Char → List Char
  | [] => []
  | c :: cs =>
    if c == '&' then parent.data ++ replaceAmp parent cs
    else c :: replaceAmp parent cs

/-! ### Data model -/

/-- A 1-based source position. -/
structure Pos where
  line : Nat
  column : Nat
deriving Repr, DecidableEq

/-- Block metadata: the start position is recorded at block-open, the end
position at block-close (absent until then). -/
structure Metadata where
  start : Pos
  stop : Option Pos
deriving Repr, DecidableEq

/-- One `key: value` declaration. -/
structure Property where
  key : String
  value : String
deriving Repr, DecidableEq

/-- A node of the AST.  `properties` is `none` until the first declaration
is appended (or until the mutable view normalises it), mirroring the
optional `properties` field of the implementation.  An absent `children`
field is modelled as the empty list: every access in the implementation
guards with `children && children.length > 0`, so the two are
observationally equivalent. -/
inductive Block where
  | mk (selectors : List String) (properties : Option (List Property))
      (children : List Block) (metadata : Option Metadata)
deriving Repr

/-- Selectors of a block. -/
def Block.selectors : Block → List String
  | .mk s _ _ _ => s

/-- Properties of a block. -/
def Block.properties : Block → Option (List Property)
  | .mk _ p _ _ => p

/-- Children of a block. -/
def Block.children : Block → List Block
  | .mk _ _ c _ => c

/-- Metadata of a block. -/
def Block.metadata : Block → Option Metadata
  | .mk _ _ _ m => m

/-! ### Mutable block view (`makeMutableBlock`) -/

/-- The state a transform handler can observe and mutate through the view:
exactly the selectors and the (normalised) property list; `children` and
`metadata` are not exposed. -/
structure BlockView where
  selectors : List String
  properties : List Property
deriving Repr, DecidableEq

/-- `makeMutableBlock` first runs `block.properties = block.properties || []`;
this is that normalisation on the block. -/
def normalizeBlock (b : Block) : Block :=
  .mk b.selectors (some (b.properties.getD [])) b.children b.metadata

/-- The view state offered to handlers after normalisation. -/
def viewOf (b : Block) : BlockView :=
  ⟨b.selectors, b.properties.getD []⟩

/-- `hasChildren()` of the view. -/
def viewHasChildren (b : Block) : Bool :=
  b.children.length > 0

/-- `getProperty(key)`: value of the first entry with that key, if any. -/
def viewGetProperty (v : BlockView) (key : String) : Option String :=
  (v.properties.find? (fun p => p.key == key)).map Property.value

/-- `hasProperty(key)`. -/
def viewHasProperty (v : BlockView) (key : String) : Bool :=
  v.properties.any (fun p => p.key == key)

/-- Updates the value of the first entry with the given key, leaving
everything else in place (the `find`-then-mutate of `setProperty`). -/
def updateFirstValue (key value : String) : List Property → List Property
  | [] => []
  | p :: ps =>
    if p.key == key then { p with value := value } :: ps
    else p :: updateFirstValue key value ps

/-- `setProperty(key, value)`: update the first matching entry in place,
or append a fresh entry when no entry matches. -/
def viewSetProperty (v : BlockView) (key value : String) : BlockView :=
  if (v.properties.find? (fun p => p.key == key)).isSome then
    { v with properties := updateFirstValue key value v.properties }
  else
    { v with properties := v.properties ++ [⟨key, value⟩] }

/-- `removeProperty(key)`: remove every entry whose key matches. -/
def viewRemoveProperty (v : BlockView) (key : String) : BlockView :=
  { v with properties := v.properties.filter (fun p => !(p.key == key)) }

/-- `setSelectors(list)`: wholesale replacement, no validation. -/
def viewSetSelectors (v : BlockView) (newSelectors : List String) : BlockView :=
  { v with selectors := newSelectors }

/-- Writing the view state back onto the block: the transform handlers
mutate `selectors` and `properties` by reference and touch nothing else. -/
def applyView (b : Block) (v : BlockView) : Block :=
  .mk v.selectors (some v.properties) b.children b.metadata

/-! ### Parser -/

/-- Modelled from the spec: `ParsingError{message, line, column}` — the
error class lives in `parser/index.ts`, which is not among the sources;
the spec gives its shape.  Thrown with the position at the moment of
failure. -/
structure ParsingError where
  message : String
  line : Nat
  column : Nat
deriving Repr, DecidableEq

/-- A currently-open block on the parser stack.  The implementation keeps
the `Block` object itself on the stack and mutates it in place; in the
pure embedding each open block is a frame holding the parts accumulated
so far, and the `Block` is assembled when the frame is closed.  Children
close strictly before their parent, so attaching each child at its
close keeps exactly the child order of the implementation (which
attaches at open). -/
structure Frame where
  selectors : List String
  properties : Option (List Property)
  children : List Block
  startPos : Pos
deriving Repr

/-- The parser's mutable state (`ParserState`).  `currentParenthesisLevel`
is an `Int` because the implementation decrements it without a guard. -/
structure ParserState where
  buffer : String
  stack : List Frame
  selectorStack : List String
  tree : List Block
  isStringLiteral : Bool
  isAtRule : Bool
  isNestedSelector : Bool
  isCustomProperty : Bool
  currentParenthesisLevel : Int
  currentPropertyName : String
  currentLine : Nat
  currentColumn : Nat
deriving Repr

/-- The fresh state a parse begins with. -/
def initialParserState : ParserState :=
  { buffer := "", stack := [], selectorStack := [], tree := []
    isStringLiteral := false, isAtRule := false, isNestedSelector := false
    isCustomProperty := false, currentParenthesisLevel := 0
    currentPropertyName := "", currentLine := 1, currentColumn := 0 }

/-- `handleOpeningBrace`: closes the current selector and opens a block. -/
def handleOpeningBrace (st : ParserState) : Except ParsingError ParserState :=
  let selector := strTrim st.buffer
  if selector.length = 0 then
    .error ⟨"Unexpected opening brace", st.currentLine, st.currentColumn⟩
  else
    let selectors := st.selectorStack ++ [selector]
    if selectors.length > 1 && selectors.any (fun s => strStartsWith s "@") then
      .error ⟨"At-rule mixed with other selectors", st.currentLine, st.currentColumn⟩
    else
      .ok { st with
        stack := st.stack ++ [⟨selectors, none, [], ⟨st.currentLine, st.currentColumn⟩⟩]
        selectorStack := []
        isNestedSelector := false
        buffer := "" }

/-- `handleClosingBrace`: closes the innermost open block, stamps its end
position and attaches it to its parent (or to the root tree). -/
def handleClosingBrace (st : ParserState) : Except ParsingError ParserState :=
  if st.stack.isEmpty || st.currentPropertyName ≠ "" then
    .error ⟨"Unexpected closing brace", st.currentLine, st.currentColumn⟩
  else
    match st.stack.getLast? with
    | none => .error ⟨"Unexpected closing brace", st.currentLine, st.currentColumn⟩
    | some frame =>
      let closed : Block :=
        .mk frame.selectors frame.properties frame.children
          (some ⟨frame.startPos, some ⟨st.currentLine, st.currentColumn⟩⟩)
      let rest := st.stack.dropLast
      match rest.getLast? with
      | some parent =>
        .ok { st with
          stack := rest.dropLast ++ [{ parent with children := parent.children ++ [closed] }]
          buffer := "" }
      | none =>
        .ok { st with stack := [], tree := st.tree ++ [closed], buffer := "" }

/-- `handleSemicolon`: ends a property declaration (or is literal text
inside a string literal). -/
def handleSemicolon (st : ParserState) : Except ParsingError ParserState :=
  if st.isStringLiteral then
    .ok { st with buffer := st.buffer.push ';' }
  else
    let value := strTrim st.buffer
    if st.currentPropertyName = "" || value = "" then
      .error ⟨"Unexpected semicolon (expected property declaration)",
        st.currentLine, st.currentColumn⟩
    else
      match st.stack.getLast? with
      | none =>
        .error ⟨"Unexpected semicolon (outside block)", st.currentLine, st.currentColumn⟩
      | some top =>
        let top' := { top with
          properties := some ((top.properties.getD []) ++ [⟨st.currentPropertyName, value⟩]) }
        .ok { st with
          stack := st.stack.dropLast ++ [top']
          currentPropertyName := ""
          isCustomProperty := false
          buffer := "" }

/-- `handleColon`: separates a property name from its value, unless the
colon is literal text (at-rule prelude, string literal, nested selector,
or no open block). -/
def handleColon (st : ParserState) : Except ParsingError ParserState :=
  if st.isAtRule || st.isStringLiteral || st.isNestedSelector || st.stack.isEmpty then
    .ok { st with buffer := st.buffer.push ':' }
  else if st.currentPropertyName ≠ "" && !st.isCustomProperty then
    .error ⟨"Unexpected colon (expected property value)", st.currentLine, st.currentColumn⟩
  else
    let name := strTrim st.buffer
    .ok { st with
      currentPropertyName := name
      isCustomProperty := strStartsWith name "!"
      buffer := "" }

/-- `handleComma`: separates selectors, unless the comma is literal text
(string literal, declaration value, inside parentheses).  When neither
branch applies the comma is dropped entirely, exactly as in the
implementation. -/
def handleComma (st : ParserState) : Except ParsingError ParserState :=
  if st.isStringLiteral || st.currentPropertyName ≠ "" || st.currentParenthesisLevel > 0 then
    .ok { st with buffer := st.buffer.push ',' }
  else if !st.isCustomProperty && st.currentParenthesisLevel = 0 then
    let selector := strTrim st.buffer
    if selector = "" then
      .error ⟨"Unexpected comma (expected selector)", st.currentLine, st.currentColumn⟩
    else
      .ok { st with selectorStack := st.selectorStack ++ [selector], buffer := "" }
  else
    .ok st

/-- `handleAmpersand`. -/
def handleAmpersand (st : ParserState) : Except ParsingError ParserState :=
  let st := { st with buffer := st.buffer.push '&' }
  if !st.isCustomProperty && !st.isStringLiteral then
    .ok { st with isNestedSelector := true }
  else
    .ok st

/-- `handleAtSign`. -/
def handleAtSign (st : ParserState) : Except ParsingError ParserState :=
  let st := { st with buffer := st.buffer.push '@' }
  if !st.isCustomProperty then
    .ok { st with isAtRule := true }
  else
    .ok st

/-- `handleDoubleQuote`: toggles string-literal mode; a quote preceded by
a backslash in the buffer does not terminate the literal. -/
def handleDoubleQuote (st : ParserState) : Except ParsingError ParserState :=
  let escaped := st.buffer.data.getLast? == some '\\'
  let st' := { st with buffer := st.buffer.push '"' }
  if st'.isCustomProperty then
    .ok st'
  else if st'.isStringLiteral then
    .ok { st' with isStringLiteral := escaped }
  else
    .ok { st' with isStringLiteral := true }

/-- `handleOpeningParenthesis`. -/
def handleOpeningParenthesis (st : ParserState) : Except ParsingError ParserState :=
  let st := { st with buffer := st.buffer.push '(' }
  if !st.isCustomProperty && !st.isStringLiteral then
    .ok { st with currentParenthesisLevel := st.currentParenthesisLevel + 1 }
  else
    .ok st

/-- `handleClosingParenthesis`: decrements the parenthesis counter with no
lower-bound guard. -/
def handleClosingParenthesis (st : ParserState) : Except ParsingError ParserState :=
  let st := { st with buffer := st.buffer.push ')' }
  if !st.isCustomProperty && !st.isStringLiteral then
    .ok { st with currentParenthesisLevel := st.currentParenthesisLevel - 1 }
  else
    .ok st

/-- Modelled from the spec: the character scan loop of
`createTreeFromString` (in `parser/index.ts`, not among the sources).
Advances the 1-based position counters (a line break resets the column
to 0 and increments the line), then dispatches the ten special
characters to their handlers; any other character is appended verbatim
to the buffer.  At-rule mode means being inside an at-rule prelude
(§4.1), and a prelude ends at its opening brace, so the loop leaves
at-rule mode when a block opens; the handlers themselves never clear the
flag, which places this reset in the missing scan loop. -/
def stepChar (st : ParserState) (c : Char) : Except ParsingError ParserState :=
  let st :=
    if c == '\n' then
      { st with currentLine := st.currentLine + 1, currentColumn := 0 }
    else
      { st with currentColumn := st.currentColumn + 1 }
  if c == '{' then
    match handleOpeningBrace st with
    | .error e => .error e
    | .ok st' => .ok { st' with isAtRule := false }
  else if c == '}' then handleClosingBrace st
  else if c == ';' then handleSemicolon st
  else if c == ':' then handleColon st
  else if c == ',' then handleComma st
  else if c == '&' then handleAmpersand st
  else if c == '@' then handleAtSign st
  else if c == '"' then handleDoubleQuote st
  else if c == '(' then handleOpeningParenthesis st
  else if c == ')' then handleClosingParenthesis st
  else .ok { st with buffer := st.buffer.push c }

/-- Runs the scan loop over the remaining characters. -/
def scanChars (st : ParserState) : List Char → Except ParsingError ParserState
  | [] => .ok st
  | c :: cs =>
    match stepChar st c with
    | .error e => .error e
    | .ok st' => scanChars st' cs

/-- Modelled from the spec: `parse(source) -> AbstractTree`, a single
left-to-right scan; an input whose blocks are not all closed at the end
of the scan fails (a missing closing brace is a parse failure). -/
def createTreeFromString (source : String) : Except ParsingError (List Block) :=
  match scanChars initialParserState source.data with
  | .error e => .error e
  | .ok st =>
    if st.stack.isEmpty then .ok st.tree
    else .error ⟨"Unclosed block", st.currentLine, st.currentColumn⟩

/-! ### Tree transformer (`transformTree`) -/

/-- A transform-stage plugin: its handler acts on the mutable view of one
block (and may fail; a thrown exception is modelled as `.error` carrying
the exception's message). -/
structure TransformPlugin where
  handler : BlockView → Except String BlockView

/-- Applies every plugin handler to the view, in the order given,
stopping at the first failure. -/
def applyPlugins (v : BlockView) : List TransformPlugin → Except String BlockView
  | [] => .ok v
  | p :: ps =>
    match p.handler v with
    | .error m => .error m
    | .ok v' => applyPlugins v' ps

/-- The message of the error `transformTree` re-raises when a handler (or
the recursion below the block) fails: the original message plus, when
the block's metadata is available, the block's start line. -/
def wrapMessage (m : String) (md : Option Metadata) : String :=
  "Transformation error: " ++ m ++
    (match md with
     | some meta => " @ line " ++ Nat.repr meta.start.line
     | none => "")

theorem sizeOf_children_lt (b : Block) : sizeOf b.children < sizeOf b := by
  cases b with
  | mk s p c m => simp [Block.children]; omega

/-- `transformTree`: pre-order walk; per block, build the view, run every
handler in order, then recurse into the children; any failure underneath
the block (its own handlers or its subtree) is caught and re-raised
wrapped with this block's start line. -/
def transformTree (tree : List Block) (plugins : List TransformPlugin) :
    Except String (List Block) :=
  match tree with
  | [] => .ok []
  | b :: rest =>
    let step : Except String Block :=
      match applyPlugins (viewOf b) plugins with
      | .error m => .error m
      | .ok v =>
        match transformTree b.children plugins with
        | .error m => .error m
        | .ok children' => .ok (.mk v.selectors (some v.properties) children' b.metadata)
    match step with
    | .error m => .error (wrapMessage m b.metadata)
    | .ok b' =>
      match transformTree rest plugins with
      | .error e => .error e
      | .ok rest' => .ok (b' :: rest')
termination_by sizeOf tree
decreasing_by
  all_goals have h := sizeOf_children_lt b
  all_goals try simp
  all_goals try omega

/-! ### Renderer -/

/-- A rendering failure.  `rendering` is the `RenderingError` class with
the offending block's start position (the constructor reads
`block.metadata.start`); `typeError` is the runtime TypeError raised by
reading a property of `undefined`, which is not a `RenderingError`. -/
inductive RenderErr where
  | rendering (message : String) (start : Option Pos)
  | typeError (message : String)
deriving Repr, DecidableEq

/-- `RenderState`: the mapping from context name to rendered fragments,
as an association list in first-seen key order (the insertion order of
the string-keyed object of the implementation). -/
structure RenderState where
  output : List (String × List String)
deriving Repr, DecidableEq

/-- Association-list lookup of a context. -/
def findContext : List (String × List String) → String → Option (List String)
  | [], _ => none
  | g :: rest, ctx => if g.1 == ctx then some g.2 else findContext rest ctx

/-- `if (!state.output[context]) state.output[context] = []`: a context
not seen before is appended, with no fragments, at the end. -/
def ensureContext (st : RenderState) (ctx : String) : RenderState :=
  match findContext st.output ctx with
  | some _ => st
  | none => ⟨st.output ++ [(ctx, [])]⟩

/-- `state.output[context].push(fragment)`. -/
def pushFragment (st : RenderState) (ctx : String) (fragment : String) : RenderState :=
  ⟨st.output.map (fun g => if g.1 == ctx then (g.1, g.2 ++ [fragment]) else g)⟩

/-- `renderProperties`: serialise the declarations as `key:value` pairs
joined by `;`. -/
def renderProperties (properties : List Property) : String :=
  strIntercalate ";" (properties.map (fun p => p.key ++ ":" ++ p.value))

/-- `renderSelector`: substitute `&` by the parent selector when present,
otherwise concatenate as `<parent> <selector>`. -/
def renderSelector (selector parent : String) : String :=
  if strIncludes selector "&" then String.mk (replaceAmp parent selector.data)
  else parent ++ " " ++ selector

/-- Splits a character list at the first occurrence of `c`, returning the
part before and the part after it. -/
def splitAtFirst (c : Char) : List Char → Option (List Char × List Char)
  | [] => none
  | x :: xs =>
    if x == c then some ([], xs)
    else (splitAtFirst c xs).map (fun p => (x :: p.1, p.2))

/-- The match of the anchored pattern used by the color-scheme merge,
with the sub-match of its capture group: a non-empty prefix free of an
opening parenthesis, one parenthesised group with non-empty contents,
and a suffix free of a closing parenthesis.  No other decomposition can
match, because the character classes forbid the delimiters inside the
prefix and the group. -/
def firstGroupOfPrelude (s : String) : Option String :=
  match splitAtFirst '(' s.data with
  | none => none
  | some (before, afterOpen) =>
    if before.isEmpty then none
    else
      match splitAtFirst ')' afterOpen with
      | none => none
      | some (inner, afterClose) =>
        if inner.isEmpty then none
        else if afterClose.contains ')' then none
        else some (String.mk ('(' :: (inner ++ [')'])))

/-- `prelude.replace(pattern, group)` with the anchored pattern above: the
capture group when the pattern matches (the match spans the whole
string, so the replacement result is the group alone), the unchanged
string when it does not. -/
def extractCondition (s : String) : String :=
  (firstGroupOfPrelude s).getD s

mutual

/-- `renderBlock`: dispatches a block to one of the four rendering rules
(responsive media query, color-scheme at-rule, other at-rule, ordinary
rule), reading `block.selectors[0]` without an emptiness guard. -/
def renderBlock (st : RenderState) (b : Block) (context : String)
    (parents : List String) : Except RenderErr RenderState :=
  match b.selectors with
  | [] => .error (.typeError "Cannot read properties of undefined (reading startsWith)")
  | s0 :: _ =>
    if strStartsWith s0 "@media screen" then
      if strIncludes context "screen" then
        .error (.rendering "Nested media queries are not supported"
          (b.metadata.map Metadata.start))
      else if strIncludes context "-color-scheme" then
        .error (.rendering
          "Responsive media queries cannot be nested inside color scheme at-rules"
          (b.metadata.map Metadata.start))
      else
        renderBlockContent st s0 parents b
    else if strStartsWith s0 "@media" && strIncludes s0 "-color-scheme" then
      if strIncludes context "-color-scheme" then
        .error (.rendering "Nested color scheme at-rules are not supported"
          (b.metadata.map Metadata.start))
      else
        let targetContext :=
          if !strStartsWith context "@media screen" then s0
          else context ++ "and" ++ extractCondition s0
        renderBlockContent st targetContext parents b
    else if strStartsWith s0 "@" then
      if strStartsWith context "@" then
        .error (.rendering "Nested at-rules are not supported"
          (b.metadata.map Metadata.start))
      else
        renderBlockContent st s0 [] b
    else
      let selectors := b.selectors.flatMap (fun selector =>
        if parents.length = 0 then [selector]
        else parents.map (fun parent => renderSelector selector parent))
      renderBlockContent st context selectors b
termination_by (sizeOf b, 1)
decreasing_by
  all_goals apply Prod.Lex.right
  all_goals omega

/-- `renderBlockContent`: ensures the context exists, emits one fragment
when the block has at least one property (`properties` present and
non-empty), then renders the children into the same context with the
given selector list as their parent selectors. -/
def renderBlockContent (st : RenderState) (context : String)
    (selectors : List String) (b : Block) : Except RenderErr RenderState :=
  match b with
  | .mk _ props children _ =>
    let st1 := ensureContext st context
    let st2 :=
      if (props.getD []).length > 0 then
        pushFragment st1 context
          (strIntercalate "," selectors ++ "\x7b" ++ renderProperties (props.getD []) ++ "\x7d")
      else st1
    renderChildren st2 children context selectors
termination_by (sizeOf b, 0)
decreasing_by
  all_goals apply Prod.Lex.left
  all_goals try simp
  all_goals try omega

/-- The child loop of `renderBlockContent`. -/
def renderChildren (st : RenderState) (bs : List Block) (context : String)
    (selectors : List String) : Except RenderErr RenderState :=
  match bs with
  | [] => .ok st
  | child :: rest =>
    match renderBlock st child context selectors with
    | .error e => .error e
    | .ok st' => renderChildren st' rest context selectors
termination_by (sizeOf bs, 2)
decreasing_by
  all_goals apply Prod.Lex.left
  all_goals try simp
  all_goals try omega

end

/-- The loop of `renderTreeToString` over the root blocks: each root block
is rendered with the default context `root` and no parent selectors. -/
def renderForest (tree : List Block) : Except RenderErr RenderState :=
  renderChildren ⟨[]⟩ tree "root" []

/-- The per-context assembly of `renderTreeToString`: a context with no
fragments yields nothing, the `root` context's fragments are
concatenated bare, any other context is wrapped in its name and braces. -/
def emitContext (context : String) (fragments : List String) : String :=
  if fragments.length = 0 then ""
  else if context == "root" then strJoin fragments
  else context ++ "\x7b" ++ strJoin fragments ++ "\x7d"

/-- `renderTreeToString`: render every root block, then join the contexts
in first-seen order. -/
def renderTreeToString (tree : List Block) : Except RenderErr String :=
  match renderForest tree with
  | .error e => .error e
  | .ok st => .ok (strJoin (st.output.map (fun g => emitContext g.1 g.2)))

/-! ### Supporting lemmas: property lists -/

theorem findProp_first (k : String) (pre suf : List Property) (p : Property)
    (hpre : ∀ q ∈ pre, q.key ≠ k) (hp : p.key = k) :
    (pre ++ p :: suf).find? (fun q => q.key == k) = some p := by
  induction pre with
  | nil => exact List.find?_cons_of_pos _ (by simp [hp])
  | cons q pre ih =>
    have hq : q.key ≠ k := hpre q (by simp)
    rw [List.cons_append, List.find?_cons_of_neg _ (by simp [hq])]
    exact ih (fun r hr => hpre r (by simp [hr]))

theorem findProp_none (k : String) (props : List Property)
    (h : ∀ q ∈ props, q.key ≠ k) :
    props.find? (fun q => q.key == k) = none := by
  rw [List.find?_eq_none]
  intro q hq
  simp [h q hq]

theorem updateFirstValue_decomp (k val : String) (pre suf : List Property) (p : Property)
    (hpre : ∀ q ∈ pre, q.key ≠ k) (hp : p.key = k) :
    updateFirstValue k val (pre ++ p :: suf) = pre ++ { p with value := val } :: suf := by
  induction pre with
  | nil => simp [updateFirstValue, hp]
  | cons q pre ih =>
    have hq : q.key ≠ k := hpre q (by simp)
    have ih' := ih (fun r hr => hpre r (by simp [hr]))
    show updateFirstValue k val (q :: (pre ++ p :: suf)) = _
    rw [updateFirstValue, if_neg (by simp [hq])]
    rw [ih']
    simp

theorem findProp_updateFirstValue_same (k val : String) (props : List Property)
    (h : (props.find? (fun q => q.key == k)).isSome) :
    ((updateFirstValue k val props).find? (fun q => q.key == k)).map Property.value
      = some val := by
  induction props with
  | nil => simp [List.find?] at h
  | cons p ps ih =>
    by_cases hp : p.key = k
    · rw [updateFirstValue, if_pos (by simp [hp]),
        List.find?_cons_of_pos _ (by simp [hp])]
      rfl
    · rw [updateFirstValue, if_neg (by simp [hp]),
        List.find?_cons_of_neg _ (by simp [hp])]
      rw [List.find?_cons_of_neg _ (by simp [hp])] at h
      exact ih h

theorem findProp_updateFirstValue_other (k k2 val : String) (props : List Property)
    (hne : k2 ≠ k) :
    (updateFirstValue k val props).find? (fun q => q.key == k2)
      = props.find? (fun q => q.key == k2) := by
  induction props with
  | nil => simp [updateFirstValue]
  | cons p ps ih =>
    by_cases hp : p.key = k
    · have hp2 : ¬ p.key = k2 := by rw [hp]; exact fun h => hne h.symm
      rw [updateFirstValue, if_pos (by simp [hp]),
        List.find?_cons_of_neg _ (by simp [hp2]),
        List.find?_cons_of_neg _ (by simp [hp2])]
    · rw [updateFirstValue, if_neg (by simp [hp])]
      by_cases hp2 : p.key = k2
      · rw [List.find?_cons_of_pos _ (by simp [hp2]),
          List.find?_cons_of_pos _ (by simp [hp2])]
      · rw [List.find?_cons_of_neg _ (by simp [hp2]),
          List.find?_cons_of_neg _ (by simp [hp2])]
        exact ih

theorem findProp_append (k : String) (l1 l2 : List Property) :
    (l1 ++ l2).find? (fun q => q.key == k)
      = match l1.find? (fun q => q.key == k) with
        | some p => some p
        | none => l2.find? (fun q => q.key == k) := by
  induction l1 with
  | nil => simp
  | cons p ps ih =>
    by_cases hp : p.key = k
    · rw [List.cons_append, List.find?_cons_of_pos _ (by simp [hp]),
        List.find?_cons_of_pos _ (by simp [hp])]
    · rw [List.cons_append, List.find?_cons_of_neg _ (by simp [hp]),
        List.find?_cons_of_neg _ (by simp [hp])]
      exact ih

theorem findProp_filter_ne (k k2 : String) (props : List Property) (hne : k2 ≠ k) :
    (props.filter (fun q => !(q.key == k))).find? (fun q => q.key == k2)
      = props.find? (fun q => q.key == k2) := by
  induction props with
  | nil => simp
  | cons p ps ih =>
    by_cases hp : p.key = k
    · have hp2 : ¬ p.key = k2 := by rw [hp]; exact fun h => hne h.symm
      rw [List.filter_cons_of_neg (by simp [hp]),
        List.find?_cons_of_neg _ (by simp [hp2])]
      exact ih
    · rw [List.filter_cons_of_pos (by simp [hp])]
      by_cases hp2 : p.key = k2
      · rw [List.find?_cons_of_pos _ (by simp [hp2]),
          List.find?_cons_of_pos _ (by simp [hp2])]
      · rw [List.find?_cons_of_neg _ (by simp [hp2]),
          List.find?_cons_of_neg _ (by simp [hp2])]
        exact ih

/-! ### Claims about the mutable block view -/

/-- C5: on a block whose property list may contain repeated keys,
`getProperty` returns the value of the first entry with the key (absence
when no entry matches); `setProperty` updates the first matching entry
in place and appends only when no entry matches; `removeProperty`
removes every matching entry; the mutation is immediately visible to a
subsequent read of the same view, and operations on one key leave
entries with other keys unchanged. -/
theorem claim_C5_mutable_view_property_operations :
    (∀ (v : BlockView) (k : String) (pre suf : List Property) (p : Property),
        v.properties = pre ++ p :: suf → (∀ q ∈ pre, q.key ≠ k) → p.key = k →
        viewGetProperty v k = some p.value)
    ∧ (∀ (v : BlockView) (k : String), (∀ q ∈ v.properties, q.key ≠ k) →
        viewGetProperty v k = none)
    ∧ (∀ (v : BlockView) (k val : String) (pre suf : List Property) (p : Property),
        v.properties = pre ++ p :: suf → (∀ q ∈ pre, q.key ≠ k) → p.key = k →
        (viewSetProperty v k val).properties = pre ++ { p with value := val } :: suf)
    ∧ (∀ (v : BlockView) (k val : String), (∀ q ∈ v.properties, q.key ≠ k) →
        (viewSetProperty v k val).properties = v.properties ++ [⟨k, val⟩])
    ∧ (∀ (v : BlockView) (k : String),
        ∀ q ∈ (viewRemoveProperty v k).properties, q.key ≠ k)
    ∧ (∀ (v : BlockView) (k val : String),
        viewGetProperty (viewSetProperty v k val) k = some val)
    ∧ (∀ (v : BlockView) (k k2 val : String), k2 ≠ k →
        viewGetProperty (viewSetProperty v k val) k2 = viewGetProperty v k2)
    ∧ (∀ (v : BlockView) (k : String),
        viewGetProperty (viewRemoveProperty v k) k = none)
    ∧ (∀ (v : BlockView) (k k2 : String), k2 ≠ k →
        viewGetProperty (viewRemoveProperty v k) k2 = viewGetProperty v k2) := by
  refine ⟨?_, ?_, ?_, ?_, ?_, ?_, ?_, ?_, ?_⟩
  · intro v k pre suf p hdec hpre hp
    simp [viewGetProperty, hdec, findProp_first k pre suf p hpre hp]
  · intro v k h
    simp [viewGetProperty, findProp_none k _ h]
  · intro v k val pre suf p hdec hpre hp
    have hfind : (v.properties.find? (fun q => q.key == k)).isSome := by
      rw [hdec, findProp_first k pre suf p hpre hp]
      rfl
    have hset : viewSetProperty v k val
        = { v with properties := updateFirstValue k val v.properties } := by
      unfold viewSetProperty
      rw [if_pos hfind]
    rw [hset]
    show updateFirstValue k val v.properties = _
    rw [hdec]
    exact updateFirstValue_decomp k val pre suf p hpre hp
  · intro v k val h
    have hfind : v.properties.find? (fun q => q.key == k) = none := findProp_none k _ h
    simp [viewSetProperty, hfind]
  · intro v k q hq
    simp only [viewRemoveProperty, List.mem_filter] at hq
    simpa using hq.2
  · intro v k val
    by_cases hfind : (v.properties.find? (fun q => q.key == k)).isSome
    · simp only [viewSetProperty, if_pos hfind, viewGetProperty]
      exact findProp_updateFirstValue_same k val v.properties hfind
    · simp only [viewSetProperty, if_neg hfind, viewGetProperty]
      rw [findProp_append]
      rw [Option.not_isSome_iff_eq_none] at hfind
      rw [hfind]
      simp [List.find?_cons_of_pos]
  · intro v k k2 val hne
    by_cases hfind : (v.properties.find? (fun q => q.key == k)).isSome
    · simp only [viewSetProperty, if_pos hfind, viewGetProperty]
      rw [findProp_updateFirstValue_other k k2 val v.properties hne]
    · simp only [viewSetProperty, if_neg hfind, viewGetProperty]
      rw [findProp_append]
      cases hv : v.properties.find? (fun q => q.key == k2) with
      | some p => simp [hv]
      | none =>
        show Option.map Property.value
          (List.find? (fun q => q.key == k2) [(⟨k, val⟩ : Property)]) = _
        have hkk : (k == k2) = false := by
          simp only [beq_eq_false_iff_ne, ne_eq]
          exact fun h => hne h.symm
        simp [List.find?, hkk]
  · intro v k
    have h : ∀ q ∈ (viewRemoveProperty v k).properties, q.key ≠ k := by
      intro q hq
      simp only [viewRemoveProperty, List.mem_filter] at hq
      simpa using hq.2
    simp [viewGetProperty, findProp_none k _ h]
  · intro v k k2 hne
    simp only [viewGetProperty, viewRemoveProperty]
    rw [findProp_filter_ne k k2 v.properties hne]

/-- Witness for C5 on a concrete view with the repeated key `b`. -/
theorem claim_C5_witness :
    viewGetProperty ⟨["a"], [⟨"b", "1"⟩, ⟨"c", "2"⟩, ⟨"b", "3"⟩]⟩ "b" = some "1"
    ∧ viewGetProperty ⟨["a"], [⟨"c", "2"⟩]⟩ "b" = none
    ∧ (viewSetProperty ⟨["a"], [⟨"b", "1"⟩, ⟨"c", "2"⟩, ⟨"b", "3"⟩]⟩ "b" "9").properties
        = [⟨"b", "9"⟩, ⟨"c", "2"⟩, ⟨"b", "3"⟩]
    ∧ (viewSetProperty ⟨["a"], [⟨"c", "2"⟩]⟩ "b" "9").properties
        = [⟨"c", "2"⟩, ⟨"b", "9"⟩]
    ∧ (⟨"c", "2"⟩ : Property).key ≠ "b"
    ∧ viewGetProperty (viewRemoveProperty ⟨["a"], [⟨"b", "1"⟩, ⟨"c", "2"⟩, ⟨"b", "3"⟩]⟩ "b") "c"
        = viewGetProperty ⟨["a"], [⟨"b", "1"⟩, ⟨"c", "2"⟩, ⟨"b", "3"⟩]⟩ "c" := by
  refine ⟨?_, ?_, ?_, ?_, ?_, ?_⟩
  · exact claim_C5_mutable_view_property_operations.1
      ⟨["a"], [⟨"b", "1"⟩, ⟨"c", "2"⟩, ⟨"b", "3"⟩]⟩ "b"
      [] [⟨"c", "2"⟩, ⟨"b", "3"⟩] ⟨"b", "1"⟩ rfl (by simp) rfl
  · exact claim_C5_mutable_view_property_operations.2.1
      ⟨["a"], [⟨"c", "2"⟩]⟩ "b" (by decide)
  · exact claim_C5_mutable_view_property_operations.2.2.1
      ⟨["a"], [⟨"b", "1"⟩, ⟨"c", "2"⟩, ⟨"b", "3"⟩]⟩ "b" "9"
      [] [⟨"c", "2"⟩, ⟨"b", "3"⟩] ⟨"b", "1"⟩ rfl (by simp) rfl
  · exact claim_C5_mutable_view_property_operations.2.2.2.1
      ⟨["a"], [⟨"c", "2"⟩]⟩ "b" "9" (by decide)
  · exact claim_C5_mutable_view_property_operations.2.2.2.2.1
      ⟨["a"], [⟨"b", "1"⟩, ⟨"c", "2"⟩, ⟨"b", "3"⟩]⟩ "b" ⟨"c", "2"⟩ (by decide)
  · exact claim_C5_mutable_view_property_operations.2.2.2.2.2.2.2.2
      ⟨["a"], [⟨"b", "1"⟩, ⟨"c", "2"⟩, ⟨"b", "3"⟩]⟩ "b" "c" (by decide)

/-! ### Supporting lemmas: substring containment -/

theorem isPrefixOf_append_self (m c : List Char) : m.isPrefixOf (m ++ c) = true := by
  induction m with
  | nil => simp [List.isPrefixOf]
  | cons x xs ih => simp [List.isPrefixOf, ih]

theorem charsContain_of_isPrefixOf (m h : List Char) (hp : m.isPrefixOf h = true) :
    charsContain m h = true := by
  cases h with
  | nil =>
    cases m with
    | nil => rfl
    | cons x xs => simp [List.isPrefixOf] at hp
  | cons c cs => simp [charsContain, hp]

theorem charsContain_append (a m c : List Char) :
    charsContain m (a ++ m ++ c) = true := by
  induction a with
  | nil =>
    simp only [List.nil_append]
    exact charsContain_of_isPrefixOf m (m ++ c) (isPrefixOf_append_self m c)
  | cons x a ih =>
    show (_ || charsContain m (a ++ m ++ c)) = true
    rw [ih]
    simp

theorem strIncludes_of_parts (a m c : String) :
    strIncludes (a ++ m ++ c) m = true := by
  show charsContain m.data (a ++ m ++ c).data = true
  rw [String.data_append, String.data_append]
  exact charsContain_append a.data m.data c.data

/-! ### Claims about the tree transformer -/

/-- The tree as `transformTree` leaves it when every handler is the
identity: each block's `properties` normalised to a present (possibly
empty) list, everything else untouched. -/
def normalizeForest (tree : List Block) : List Block :=
  match tree with
  | [] => []
  | b :: rest =>
    Block.mk b.selectors (some (b.properties.getD []))
      (normalizeForest b.children) b.metadata :: normalizeForest rest
termination_by sizeOf tree
decreasing_by
  all_goals have h := sizeOf_children_lt b
  all_goals try simp
  all_goals try omega

theorem transformTree_no_plugins_bounded :
    ∀ (n : Nat) (tree : List Block), sizeOf tree ≤ n →
      transformTree tree [] = .ok (normalizeForest tree) := by
  intro n
  induction n with
  | zero =>
    intro tree h
    exfalso
    cases tree <;> simp at h
  | succ n ih =>
    intro tree h
    cases tree with
    | nil =>
      rw [transformTree.eq_def, normalizeForest.eq_def]
    | cons b rest =>
      have hb := sizeOf_children_lt b
      simp only [List.cons.sizeOf_spec] at h
      have h1 : sizeOf b.children ≤ n := by omega
      have h2 : sizeOf rest ≤ n := by omega
      rw [transformTree.eq_def, normalizeForest.eq_def]
      simp only [applyPlugins, ih b.children h1, ih rest h2, viewOf]

/-- C9: with an empty handler list `transformTree` is not a
representational no-op: it rewrites every visited block so that an
absent `properties` field becomes a present empty list, and it leaves
the selectors, the children (beyond their own normalisation) and the
metadata of every block unchanged. -/
theorem claim_C9_empty_transform_normalizes_properties :
    (∀ tree : List Block, transformTree tree [] = .ok (normalizeForest tree))
    ∧ (∀ (sels : List String) (children rest : List Block) (md : Option Metadata),
        normalizeForest (Block.mk sels none children md :: rest)
          = Block.mk sels (some []) (normalizeForest children) md :: normalizeForest rest)
    ∧ (∀ (sels : List String) (props : List Property) (children rest : List Block)
          (md : Option Metadata),
        normalizeForest (Block.mk sels (some props) children md :: rest)
          = Block.mk sels (some props) (normalizeForest children) md :: normalizeForest rest)
    ∧ transformTree [Block.mk ["a"] none [] none] []
        = .ok [Block.mk ["a"] (some []) [] none]
    ∧ Block.mk ["a"] (some []) [] none ≠ Block.mk ["a"] none [] none
    ∧ (∀ b : Block, b.properties = none → (normalizeBlock b).properties = some []) := by
  refine ⟨?_, ?_, ?_, ?_, ?_, ?_⟩
  · intro tree
    exact transformTree_no_plugins_bounded (sizeOf tree) tree (Nat.le_refl _)
  · intro sels children rest md
    rw [normalizeForest.eq_def]
    rfl
  · intro sels props children rest md
    rw [normalizeForest.eq_def]
    rfl
  · rw [transformTree_no_plugins_bounded (sizeOf [Block.mk ["a"] none [] none]) _ (Nat.le_refl _)]
    simp [normalizeForest.eq_def, Block.selectors, Block.properties, Block.children,
      Block.metadata]
  · intro h
    injection h with h1 h2 h3 h4
    exact Option.noConfusion h2
  · intro b h
    cases b with
    | mk s p c m =>
      simp only [Block.properties] at h
      simp [normalizeBlock, Block.properties, h]

/-- Witness for C9's conditional part on a concrete block with absent
properties. -/
theorem claim_C9_witness :
    (normalizeBlock (Block.mk ["a"] none [] none)).properties = some [] :=
  claim_C9_empty_transform_normalizes_properties.2.2.2.2.2
    (Block.mk ["a"] none [] none) rfl

/-- C6: the transformer walks the forest pre-order — all handlers are
applied to a block's view, in the order given, before any of its
children are visited, and the children before the following siblings —
and a handler failure is re-raised as a single error whose message
contains the original handler message verbatim plus, when the block's
metadata is available, the block's start line. -/
theorem claim_C6_transformer_preorder_and_error_wrapping :
    (∀ (v : BlockView) (ps qs : List TransformPlugin),
        applyPlugins v (ps ++ qs)
          = match applyPlugins v ps with
            | .error m => .error m
            | .ok v' => applyPlugins v' qs)
    ∧ (∀ (b : Block) (rest : List Block) (plugins : List TransformPlugin) (v' : BlockView),
        applyPlugins (viewOf b) plugins = .ok v' →
        transformTree (b :: rest) plugins
          = match transformTree b.children plugins with
            | .error m => .error (wrapMessage m b.metadata)
            | .ok cs =>
              match transformTree rest plugins with
              | .error e => .error e
              | .ok rs => .ok (Block.mk v'.selectors (some v'.properties) cs b.metadata :: rs))
    ∧ (∀ (b : Block) (rest : List Block) (plugins : List TransformPlugin) (m : String),
        applyPlugins (viewOf b) plugins = .error m →
        transformTree (b :: rest) plugins = .error (wrapMessage m b.metadata))
    ∧ (∀ (m : String) (md : Option Metadata), strIncludes (wrapMessage m md) m = true)
    ∧ (∀ (m : String) (meta : Metadata),
        strIncludes (wrapMessage m (some meta))
          (" @ line " ++ Nat.repr meta.start.line) = true) := by
  refine ⟨?_, ?_, ?_, ?_, ?_⟩
  · intro v ps qs
    induction ps generalizing v with
    | nil => simp [applyPlugins]
    | cons p ps ih =>
      simp only [List.cons_append, applyPlugins]
      cases p.handler v with
      | error m => rfl
      | ok v2 => exact ih v2
  · intro b rest plugins v' happ
    rw [transformTree.eq_def]
    simp only [happ]
    cases transformTree b.children plugins with
    | error m => rfl
    | ok cs =>
      cases transformTree rest plugins with
      | error e => rfl
      | ok rs => rfl
  · intro b rest plugins m happ
    rw [transformTree.eq_def]
    simp only [happ]
  · intro m md
    show strIncludes ("Transformation error: " ++ m ++ _) m = true
    exact strIncludes_of_parts _ _ _
  · intro m meta
    show strIncludes ("Transformation error: " ++ m
      ++ (" @ line " ++ Nat.repr meta.start.line))
      (" @ line " ++ Nat.repr meta.start.line) = true
    have h := strIncludes_of_parts ("Transformation error: " ++ m)
      (" @ line " ++ Nat.repr meta.start.line) ""
    simpa using h

/-- Witness for C6: a failing handler on a block at line 3 yields the
wrapped message, and an all-succeeding (empty) handler run follows the
pre-order equation. -/
theorem claim_C6_witness :
    (transformTree [Block.mk ["a"] none [] (some ⟨⟨3, 1⟩, none⟩)]
        [⟨fun _ => Except.error "boom"⟩]
      = Except.error "Transformation error: boom @ line 3")
    ∧ (transformTree [Block.mk ["a"] (some [⟨"k", "v"⟩]) [] none] []
      = Except.ok [Block.mk ["a"] (some [⟨"k", "v"⟩]) [] none]) := by
  constructor
  · have h := claim_C6_transformer_preorder_and_error_wrapping.2.2.1
      (Block.mk ["a"] none [] (some ⟨⟨3, 1⟩, none⟩)) []
      [⟨fun _ => Except.error "boom"⟩] "boom" rfl
    rw [h]
    rfl
  · have h := claim_C6_transformer_preorder_and_error_wrapping.2.1
      (Block.mk ["a"] (some [⟨"k", "v"⟩]) [] none) [] []
      ⟨["a"], [⟨"k", "v"⟩]⟩ rfl
    rw [h]
    rw [show (Block.mk ["a"] (some [⟨"k", "v"⟩]) [] none).children = ([] : List Block) from rfl]
    rw [show transformTree ([] : List Block) [] = .ok [] from by rw [transformTree.eq_def]]
    rfl

/-! ### Claims about the parenthesis counter -/

/-- C8 counterexample: the claim says the counter is an integer ≥ 0
throughout every parse, but scanning the single-character input `)`
leaves it at -1: the closing-parenthesis handler decrements with no
lower bound. -/
theorem claim_C8_counterexample :
    (scanChars initialParserState [')']).map ParserState.currentParenthesisLevel
      = Except.ok (-1)
    ∧ ¬ (0 : Int) ≤ -1 := by
  constructor
  · rfl
  · decide

/-- C8 amended: the closing-parenthesis handler decrements the counter by
exactly one whenever the parser is not inside a custom-property value
and not inside a string literal (and leaves it unchanged otherwise),
with no lower-bound guard, so the counter can become negative on an
unmatched closing parenthesis; it stays ≥ 0 across the handler exactly
when it was ≥ 1 beforehand, and the opening-parenthesis handler never
decreases it. -/
theorem claim_C8_level_decrement_amended :
    (∀ st : ParserState, st.isCustomProperty = false → st.isStringLiteral = false →
        handleClosingParenthesis st
          = .ok { st with buffer := st.buffer.push ')',
                          currentParenthesisLevel := st.currentParenthesisLevel - 1 })
    ∧ (∀ st : ParserState, st.isCustomProperty = true ∨ st.isStringLiteral = true →
        handleClosingParenthesis st = .ok { st with buffer := st.buffer.push ')' })
    ∧ (∀ st st' : ParserState, 1 ≤ st.currentParenthesisLevel →
        handleClosingParenthesis st = .ok st' → 0 ≤ st'.currentParenthesisLevel)
    ∧ (∀ st st' : ParserState, 0 ≤ st.currentParenthesisLevel →
        handleOpeningParenthesis st = .ok st' →
        st.currentParenthesisLevel ≤ st'.currentParenthesisLevel) := by
  refine ⟨?_, ?_, ?_, ?_⟩
  · intro st h1 h2
    simp [handleClosingParenthesis, h1, h2]
  · intro st h
    rcases h with h | h <;> simp [handleClosingParenthesis, h]
  · intro st st' h1 h2
    simp only [handleClosingParenthesis] at h2
    split at h2 <;> (injection h2 with h; subst h; simp; try omega)
  · intro st st' h1 h2
    simp only [handleOpeningParenthesis] at h2
    split at h2 <;> (injection h2 with h; subst h; simp; try omega)

/-- Witness for C8's amended statement at concrete parser states. -/
theorem claim_C8_witness :
    handleClosingParenthesis initialParserState
      = .ok { initialParserState with buffer := ")", currentParenthesisLevel := -1 }
    ∧ (∀ st' : ParserState,
        handleClosingParenthesis { initialParserState with currentParenthesisLevel := 1 }
          = .ok st' → 0 ≤ st'.currentParenthesisLevel) := by
  constructor
  · have h := claim_C8_level_decrement_amended.1 initialParserState rfl rfl
    rw [h]
    rfl
  · intro st' h
    exact claim_C8_level_decrement_amended.2.2.1
      { initialParserState with currentParenthesisLevel := 1 } st' (by decide) h

/-! ### Claims about the parsed tree shape -/

/-- The per-selector-list part of the block-open validation: the list is
non-empty, and a list of more than one selector has no entry starting
with `@`. -/
def selectorListOk (sels : List String) : Bool :=
  !sels.isEmpty && (decide (sels.length ≤ 1) || sels.all (fun s => !strStartsWith s "@"))

mutual

/-- The C4 tree invariant on one block, transitively. -/
def blockOk : Block → Bool
  | .mk sels _ children _ => selectorListOk sels && blocksOk children

/-- The C4 tree invariant on a forest. -/
def blocksOk : List Block → Bool
  | [] => true
  | b :: bs => blockOk b && blocksOk bs

end

/-- The invariant on an open frame: its selector list was validated at
block-open, and its closed children satisfy the invariant. -/
def frameOk (f : Frame) : Bool :=
  selectorListOk f.selectors && blocksOk f.children

/-- The invariant on the whole parser state. -/
def parserStateOk (st : ParserState) : Bool :=
  blocksOk st.tree && st.stack.all frameOk

theorem blocksOk_append (l1 l2 : List Block) :
    blocksOk (l1 ++ l2) = (blocksOk l1 && blocksOk l2) := by
  induction l1 with
  | nil => simp [blocksOk]
  | cons b bs ih => simp [blocksOk, ih, Bool.and_assoc]

theorem frames_preserved (frames : List Frame) (h : frames.all frameOk = true) :
    frames.dropLast.all frameOk = true := by
  rw [List.all_eq_true] at h ⊢
  intro f hf
  exact h f ((List.dropLast_sublist frames).subset hf)

theorem handleOpeningBrace_preserves (st st' : ParserState)
    (h1 : parserStateOk st = true) (h2 : handleOpeningBrace st = .ok st') :
    parserStateOk st' = true := by
  simp only [handleOpeningBrace] at h2
  split at h2
  · exact Except.noConfusion h2
  · split at h2
    · exact Except.noConfusion h2
    · rename_i hne hmix
      injection h2 with h
      subst h
      simp only [parserStateOk, Bool.and_eq_true] at h1
      simp only [parserStateOk, Bool.and_eq_true]
      refine ⟨by simpa using h1.1, ?_⟩
      simp only [List.all_append, Bool.and_eq_true]
      refine ⟨by simpa using h1.2, ?_⟩
      simp only [List.all_cons, List.all_nil, Bool.and_true]
      show (selectorListOk _ && blocksOk []) = true
      rw [Bool.and_eq_true]
      refine ⟨?_, rfl⟩
      rw [selectorListOk, Bool.and_eq_true]
      constructor
      · simp
      · by_cases hlen : (st.selectorStack ++ [strTrim st.buffer]).length ≤ 1
        · have hd : decide ((st.selectorStack ++ [strTrim st.buffer]).length ≤ 1) = true := by
            simpa using hlen
          rw [hd]
          simp
        · have hgt : decide ((st.selectorStack ++ [strTrim st.buffer]).length > 1) = true := by
            rw [decide_eq_true_eq]
            omega
          have hany : ((st.selectorStack ++ [strTrim st.buffer]).any
              fun s => strStartsWith s "@") = false := by
            cases hval : ((st.selectorStack ++ [strTrim st.buffer]).any
                fun s => strStartsWith s "@") with
            | false => rfl
            | true =>
              exfalso
              apply hmix
              rw [hgt, hval]
              rfl
          simp only [Bool.or_eq_true]
          right
          rw [List.any_eq_false] at hany
          rw [List.all_eq_true]
          intro s hs
          simp [hany s hs]

theorem handleClosingBrace_preserves (st st' : ParserState)
    (h1 : parserStateOk st = true) (h2 : handleClosingBrace st = .ok st') :
    parserStateOk st' = true := by
  simp only [handleClosingBrace] at h2
  split at h2
  · exact Except.noConfusion h2
  · simp only [parserStateOk, Bool.and_eq_true] at h1
    split at h2
    · exact Except.noConfusion h2
    · rename_i frame hlast
      have hframe : frameOk frame = true :=
        List.all_eq_true.mp h1.2 frame (List.mem_of_mem_getLast? hlast)
      have hblock : blockOk (Block.mk frame.selectors frame.properties frame.children
          (some ⟨frame.startPos, some ⟨st.currentLine, st.currentColumn⟩⟩)) = true := by
        simp only [blockOk]
        simpa [frameOk] using hframe
      have hrest : st.stack.dropLast.all frameOk = true := frames_preserved _ h1.2
      split at h2
      · rename_i parent hparent
        injection h2 with h
        subst h
        have hpar : frameOk parent = true :=
          List.all_eq_true.mp hrest parent (List.mem_of_mem_getLast? hparent)
        simp only [parserStateOk, Bool.and_eq_true]
        refine ⟨by simpa using h1.1, ?_⟩
        simp only [List.all_append]
        rw [Bool.and_eq_true]
        refine ⟨frames_preserved _ hrest, ?_⟩
        simp only [List.all_cons, List.all_nil, Bool.and_true]
        simp only [frameOk, Bool.and_eq_true] at hpar ⊢
        refine ⟨by simpa using hpar.1, ?_⟩
        rw [blocksOk_append]
        simp [hpar.2, blocksOk, hblock]
      · injection h2 with h
        subst h
        simp only [parserStateOk, Bool.and_eq_true]
        constructor
        · rw [blocksOk_append]
          simp [h1.1, blocksOk, hblock]
        · simp

theorem handleSemicolon_preserves (st st' : ParserState)
    (h1 : parserStateOk st = true) (h2 : handleSemicolon st = .ok st') :
    parserStateOk st' = true := by
  simp only [handleSemicolon] at h2
  split at h2
  · injection h2 with h
    subst h
    simpa [parserStateOk] using h1
  · split at h2
    · exact Except.noConfusion h2
    · simp only [parserStateOk, Bool.and_eq_true] at h1
      split at h2
      · exact Except.noConfusion h2
      · rename_i top hlast
        injection h2 with h
        subst h
        have htop : frameOk top = true :=
          List.all_eq_true.mp h1.2 top (List.mem_of_mem_getLast? hlast)
        simp only [parserStateOk, Bool.and_eq_true]
        refine ⟨by simpa using h1.1, ?_⟩
        simp only [List.all_append, Bool.and_eq_true]
        refine ⟨frames_preserved _ h1.2, ?_⟩
        simp only [List.all_cons, List.all_nil, Bool.and_true]
        simpa [frameOk] using htop

theorem handleColon_preserves (st st' : ParserState)
    (h1 : parserStateOk st = true) (h2 : handleColon st = .ok st') :
    parserStateOk st' = true := by
  simp only [handleColon] at h2
  split at h2
  · injection h2 with h
    subst h
    simpa [parserStateOk] using h1
  · split at h2
    · exact Except.noConfusion h2
    · injection h2 with h
      subst h
      simpa [parserStateOk] using h1

theorem handleComma_preserves (st st' : ParserState)
    (h1 : parserStateOk st = true) (h2 : handleComma st = .ok st') :
    parserStateOk st' = true := by
  simp only [handleComma] at h2
  split at h2
  · injection h2 with h; subst h; simpa [parserStateOk] using h1
  · split at h2
    · split at h2
      · exact Except.noConfusion h2
      · injection h2 with h; subst h; simpa [parserStateOk] using h1
    · injection h2 with h; subst h; simpa [parserStateOk] using h1

theorem handleAmpersand_preserves (st st' : ParserState)
    (h1 : parserStateOk st = true) (h2 : handleAmpersand st = .ok st') :
    parserStateOk st' = true := by
  simp only [handleAmpersand] at h2
  split at h2 <;> (injection h2 with h; subst h; simpa [parserStateOk] using h1)

theorem handleAtSign_preserves (st st' : ParserState)
    (h1 : parserStateOk st = true) (h2 : handleAtSign st = .ok st') :
    parserStateOk st' = true := by
  simp only [handleAtSign] at h2
  split at h2 <;> (injection h2 with h; subst h; simpa [parserStateOk] using h1)

theorem handleDoubleQuote_preserves (st st' : ParserState)
    (h1 : parserStateOk st = true) (h2 : handleDoubleQuote st = .ok st') :
    parserStateOk st' = true := by
  simp only [handleDoubleQuote] at h2
  split at h2
  · injection h2 with h
    subst h
    simpa [parserStateOk] using h1
  · split at h2 <;> (injection h2 with h; subst h; simpa [parserStateOk] using h1)

theorem handleOpeningParenthesis_preserves (st st' : ParserState)
    (h1 : parserStateOk st = true) (h2 : handleOpeningParenthesis st = .ok st') :
    parserStateOk st' = true := by
  simp only [handleOpeningParenthesis] at h2
  split at h2 <;> (injection h2 with h; subst h; simpa [parserStateOk] using h1)

theorem handleClosingParenthesis_preserves (st st' : ParserState)
    (h1 : parserStateOk st = true) (h2 : handleClosingParenthesis st = .ok st') :
    parserStateOk st' = true := by
  simp only [handleClosingParenthesis] at h2
  split at h2 <;> (injection h2 with h; subst h; simpa [parserStateOk] using h1)

theorem stepChar_preserves (st st' : ParserState) (c : Char)
    (h1 : parserStateOk st = true) (h2 : stepChar st c = .ok st') :
    parserStateOk st' = true := by
  unfold stepChar at h2
  simp only [] at h2
  set st1 := (if c == '\n' then
      { st with currentLine := st.currentLine + 1, currentColumn := 0 }
    else
      { st with currentColumn := st.currentColumn + 1 }) with hst1
  have h1' : parserStateOk st1 = true := by
    rw [hst1]
    split <;> simpa [parserStateOk] using h1
  clear hst1 h1
  split at h2
  · -- opening brace: dispatch to handleOpeningBrace, then leave at-rule mode
    cases hob : handleOpeningBrace st1 with
    | error e =>
      rw [hob] at h2
      exact Except.noConfusion h2
    | ok st2 =>
      rw [hob] at h2
      injection h2 with h
      subst h
      have := handleOpeningBrace_preserves _ _ h1' hob
      simpa [parserStateOk] using this
  · split at h2
    · exact handleClosingBrace_preserves _ _ h1' h2
    · split at h2
      · exact handleSemicolon_preserves _ _ h1' h2
      · split at h2
        · exact handleColon_preserves _ _ h1' h2
        · split at h2
          · exact handleComma_preserves _ _ h1' h2
          · split at h2
            · exact handleAmpersand_preserves _ _ h1' h2
            · split at h2
              · exact handleAtSign_preserves _ _ h1' h2
              · split at h2
                · exact handleDoubleQuote_preserves _ _ h1' h2
                · split at h2
                  · exact handleOpeningParenthesis_preserves _ _ h1' h2
                  · split at h2
                    · exact handleClosingParenthesis_preserves _ _ h1' h2
                    · injection h2 with h
                      subst h
                      simpa [parserStateOk] using h1'

theorem scanChars_preserves (cs : List Char) :
    ∀ (st st' : ParserState), parserStateOk st = true →
      scanChars st cs = .ok st' → parserStateOk st' = true := by
  induction cs with
  | nil =>
    intro st st' h1 h2
    injection h2 with h
    subst h
    exact h1
  | cons c cs ih =>
    intro st st' h1 h2
    simp only [scanChars] at h2
    cases hstep : stepChar st c with
    | error e =>
      rw [hstep] at h2
      exact Except.noConfusion h2
    | ok st2 =>
      rw [hstep] at h2
      exact ih st2 st' (stepChar_preserves st st2 c h1 hstep) h2

theorem string_eq_empty_of_length_zero (s : String) (h : s.length = 0) : s = "" := by
  cases s with
  | mk data =>
    cases data with
    | nil => rfl
    | cons c cs => simp [String.length] at h

/-- C4: every tree a successful parse returns satisfies the selector
invariants — every block, transitively, has a non-empty selector list,
and a block with more than one selector has no entry starting with `@`
(that is what `blocksOk` checks) — because the block-open handler fails
on an empty trimmed buffer and fails with the mixed-at-rule message
whenever the assembled selector list is longer than one and contains an
entry starting with `@`. -/
theorem claim_C4_parsed_tree_selector_invariants :
    (∀ (source : String) (tree : List Block),
        createTreeFromString source = .ok tree → blocksOk tree = true)
    ∧ (∀ st : ParserState, strTrim st.buffer = "" →
        handleOpeningBrace st
          = .error ⟨"Unexpected opening brace", st.currentLine, st.currentColumn⟩)
    ∧ (∀ st : ParserState, strTrim st.buffer ≠ "" →
        (st.selectorStack ++ [strTrim st.buffer]).length > 1 →
        ((st.selectorStack ++ [strTrim st.buffer]).any fun s => strStartsWith s "@") = true →
        handleOpeningBrace st
          = .error ⟨"At-rule mixed with other selectors", st.currentLine, st.currentColumn⟩) := by
  refine ⟨?_, ?_, ?_⟩
  · intro source tree h
    unfold createTreeFromString at h
    cases hscan : scanChars initialParserState source.data with
    | error e =>
      rw [hscan] at h
      exact Except.noConfusion h
    | ok stf =>
      rw [hscan] at h
      have hok : parserStateOk stf = true :=
        scanChars_preserves source.data initialParserState stf rfl hscan
      replace h : (if stf.stack.isEmpty = true then Except.ok stf.tree
          else Except.error
            (⟨"Unclosed block", stf.currentLine, stf.currentColumn⟩ : ParsingError))
          = Except.ok tree := h
      by_cases hs : stf.stack.isEmpty = true
      · rw [if_pos hs] at h
        injection h with h
        subst h
        rw [parserStateOk, Bool.and_eq_true] at hok
        exact hok.1
      · rw [if_neg hs] at h
        exact Except.noConfusion h
  · intro st h
    unfold handleOpeningBrace
    rw [if_pos (by rw [h]; rfl)]
  · intro st hne hlen hany
    unfold handleOpeningBrace
    rw [if_neg (fun hz => hne (string_eq_empty_of_length_zero _ hz))]
    rw [if_pos]
    rw [Bool.and_eq_true]
    exact ⟨by rw [decide_eq_true_eq]; exact hlen, hany⟩

/-- Witness for C4 at a concrete parse and concrete block-open states. -/
theorem claim_C4_witness :
    blocksOk [Block.mk ["a"] (some [⟨"b", "1"⟩]) []
        (some ⟨⟨1, 2⟩, some ⟨1, 7⟩⟩)] = true
    ∧ handleOpeningBrace { initialParserState with buffer := " " }
        = .error ⟨"Unexpected opening brace", 1, 0⟩
    ∧ handleOpeningBrace { initialParserState with buffer := "@media x", selectorStack := ["a"] }
        = .error ⟨"At-rule mixed with other selectors", 1, 0⟩ := by
  refine ⟨?_, ?_, ?_⟩
  · exact claim_C4_parsed_tree_selector_invariants.1 "a\x7bb:1;\x7d"
      [Block.mk ["a"] (some [⟨"b", "1"⟩]) [] (some ⟨⟨1, 2⟩, some ⟨1, 7⟩⟩)] rfl
  · exact claim_C4_parsed_tree_selector_invariants.2.1
      { initialParserState with buffer := " " } rfl
  · exact claim_C4_parsed_tree_selector_invariants.2.2
      { initialParserState with buffer := "@media x", selectorStack := ["a"] }
      (by decide) (by decide) (by decide)

/-! ### Supporting lemmas: selector prefixes and ampersand substitution -/

theorem strStartsWith_trans (s mid pre : String)
    (h1 : strStartsWith s mid = true) (h2 : strStartsWith mid pre = true) :
    strStartsWith s pre = true := by
  rw [strStartsWith, List.isPrefixOf_iff_prefix] at h1 h2 ⊢
  exact h2.trans h1

theorem not_startsWith_media_screen (s : String) (h : strStartsWith s "@" = false) :
    strStartsWith s "@media screen" = false := by
  cases hv : strStartsWith s "@media screen" with
  | false => rfl
  | true =>
    rw [strStartsWith_trans s "@media screen" "@" hv (by decide)] at h
    exact Bool.noConfusion h

theorem not_startsWith_media (s : String) (h : strStartsWith s "@" = false) :
    strStartsWith s "@media" = false := by
  cases hv : strStartsWith s "@media" with
  | false => rfl
  | true =>
    rw [strStartsWith_trans s "@media" "@" hv (by decide)] at h
    exact Bool.noConfusion h

theorem replaceAmp_no_amp (parent : String) (l : List Char)
    (h : '&' ∈ l → False) : replaceAmp parent l = l := by
  induction l with
  | nil => rfl
  | cons c cs ih =>
    rw [replaceAmp, if_neg (by simp; exact fun hc => h (by simp [hc]))]
    rw [ih (fun hc => h (by simp [hc]))]

theorem replaceAmp_decomp (parent : String) (pre suf : List Char)
    (h : '&' ∈ pre → False) :
    replaceAmp parent (pre ++ '&' :: suf)
      = pre ++ parent.data ++ replaceAmp parent suf := by
  induction pre with
  | nil => simp [replaceAmp]
  | cons c cs ih =>
    rw [List.cons_append, replaceAmp,
      if_neg (by simp; exact fun hc => h (by simp [hc]))]
    rw [ih (fun hc => h (by simp [hc]))]
    simp

/-! ### Claims about the renderer: ordinary rules -/

/-- C1: a block whose first selector does not start with `@` takes the
ordinary-rule branch: with a non-empty inherited parent list the
rendered selector list is the cross product of the block's selectors
with the parents (`&`-substitution when the selector contains `&`,
otherwise `<parent> <selector>` with one space), with an empty parent
list the block's own selectors are used unchanged, and
`renderBlockContent` passes exactly the resulting selector list to
every child as its parent-selector list. -/
theorem claim_C1_ordinary_rule_cross_product :
    (∀ (st : RenderState) (context : String) (parents : List String)
        (s0 : String) (rest : List String) (props : Option (List Property))
        (children : List Block) (md : Option Metadata),
        strStartsWith s0 "@" = false → parents ≠ [] →
        renderBlock st (Block.mk (s0 :: rest) props children md) context parents
          = renderBlockContent st context
              ((s0 :: rest).flatMap fun selector =>
                parents.map fun parent => renderSelector selector parent)
              (Block.mk (s0 :: rest) props children md))
    ∧ (∀ (st : RenderState) (context : String)
        (s0 : String) (rest : List String) (props : Option (List Property))
        (children : List Block) (md : Option Metadata),
        strStartsWith s0 "@" = false →
        renderBlock st (Block.mk (s0 :: rest) props children md) context []
          = renderBlockContent st context (s0 :: rest)
              (Block.mk (s0 :: rest) props children md))
    ∧ (∀ selector parent : String, strIncludes selector "&" = true →
        renderSelector selector parent = String.mk (replaceAmp parent selector.data))
    ∧ (∀ (parent : String) (pre suf : List Char), ('&' ∈ pre → False) →
        replaceAmp parent (pre ++ '&' :: suf)
          = pre ++ parent.data ++ replaceAmp parent suf)
    ∧ (∀ (parent : String) (l : List Char), ('&' ∈ l → False) →
        replaceAmp parent l = l)
    ∧ (∀ selector parent : String, strIncludes selector "&" = false →
        renderSelector selector parent = parent ++ " " ++ selector)
    ∧ (∀ (st : RenderState) (context : String) (selectors : List String)
        (sels : List String) (props : Option (List Property))
        (children : List Block) (md : Option Metadata),
        renderBlockContent st context selectors (Block.mk sels props children md)
          = renderChildren
              (if (props.getD []).length > 0 then
                pushFragment (ensureContext st context) context
                  (strIntercalate "," selectors ++ "\x7b"
                    ++ renderProperties (props.getD []) ++ "\x7d")
              else ensureContext st context)
              children context selectors) := by
  refine ⟨?_, ?_, ?_, ?_, ?_, ?_, ?_⟩
  · intro st context parents s0 rest props children md h hp
    rw [renderBlock.eq_def]
    simp only [Block.selectors]
    rw [if_neg (by rw [not_startsWith_media_screen s0 h]; simp)]
    rw [if_neg (by rw [not_startsWith_media s0 h]; simp)]
    rw [if_neg (by rw [h]; simp)]
    have hlen : ¬ parents.length = 0 := by
      cases parents with
      | nil => exact absurd rfl hp
      | cons p ps => simp
    simp only [hlen, if_false]
  · intro st context s0 rest props children md h
    rw [renderBlock.eq_def]
    simp only [Block.selectors]
    rw [if_neg (by rw [not_startsWith_media_screen s0 h]; simp)]
    rw [if_neg (by rw [not_startsWith_media s0 h]; simp)]
    rw [if_neg (by rw [h]; simp)]
    simp
  · intro selector parent h
    rw [renderSelector, if_pos h]
  · exact replaceAmp_decomp
  · exact replaceAmp_no_amp
  · intro selector parent h
    rw [renderSelector, if_neg (by rw [h]; simp)]
  · intro st context selectors sels props children md
    rw [renderBlockContent.eq_def]

/-- Witness for C1: the cross product of `["&:hover", ".b"]` with the
single parent `.a` substitutes the ampersand and concatenates the plain
selector. -/
theorem claim_C1_witness :
    renderBlock ⟨[]⟩
        (Block.mk ["&:hover", ".b"] (some [⟨"color", "red"⟩]) [] none) "root" [".a"]
      = renderBlockContent ⟨[]⟩ "root" [".a:hover", ".a .b"]
          (Block.mk ["&:hover", ".b"] (some [⟨"color", "red"⟩]) [] none) := by
  have h := claim_C1_ordinary_rule_cross_product.1 ⟨[]⟩ "root" [".a"]
    "&:hover" [".b"] (some [⟨"color", "red"⟩]) [] none (by decide) (by simp)
  rw [h]
  congr 1

/-! ### Claims about the renderer: at-rule nesting rejection -/

/-- C3: the renderer rejects exactly the illegal at-rule nestings — a
`@media screen` block inside a context that mentions `screen` or a
color-scheme context, a color-scheme block inside a color-scheme
context, any other at-rule inside an at-rule context — each with an
accepted case when the context condition fails, and the raised
`RenderingError` carries the offending block's start position. -/
theorem claim_C3_nesting_rejection :
    (∀ (st : RenderState) (context : String) (parents : List String)
        (s0 : String) (rest : List String) (props : Option (List Property))
        (children : List Block) (md : Option Metadata),
        strStartsWith s0 "@media screen" = true →
        strIncludes context "screen" = true →
        renderBlock st (Block.mk (s0 :: rest) props children md) context parents
          = .error (.rendering "Nested media queries are not supported"
              (md.map Metadata.start)))
    ∧ (∀ (st : RenderState) (context : String) (parents : List String)
        (s0 : String) (rest : List String) (props : Option (List Property))
        (children : List Block) (md : Option Metadata),
        strStartsWith s0 "@media screen" = true →
        strIncludes context "screen" = false →
        strIncludes context "-color-scheme" = true →
        renderBlock st (Block.mk (s0 :: rest) props children md) context parents
          = .error (.rendering
              "Responsive media queries cannot be nested inside color scheme at-rules"
              (md.map Metadata.start)))
    ∧ (∀ (st : RenderState) (context : String) (parents : List String)
        (s0 : String) (rest : List String) (props : Option (List Property))
        (children : List Block) (md : Option Metadata),
        strStartsWith s0 "@media screen" = true →
        strIncludes context "screen" = false →
        strIncludes context "-color-scheme" = false →
        renderBlock st (Block.mk (s0 :: rest) props children md) context parents
          = renderBlockContent st s0 parents (Block.mk (s0 :: rest) props children md))
    ∧ (∀ (st : RenderState) (context : String) (parents : List String)
        (s0 : String) (rest : List String) (props : Option (List Property))
        (children : List Block) (md : Option Metadata),
        strStartsWith s0 "@media screen" = false →
        strStartsWith s0 "@media" = true →
        strIncludes s0 "-color-scheme" = true →
        strIncludes context "-color-scheme" = true →
        renderBlock st (Block.mk (s0 :: rest) props children md) context parents
          = .error (.rendering "Nested color scheme at-rules are not supported"
              (md.map Metadata.start)))
    ∧ (∀ (st : RenderState) (context : String) (parents : List String)
        (s0 : String) (rest : List String) (props : Option (List Property))
        (children : List Block) (md : Option Metadata),
        strStartsWith s0 "@media screen" = false →
        strStartsWith s0 "@media" = true →
        strIncludes s0 "-color-scheme" = true →
        strIncludes context "-color-scheme" = false →
        renderBlock st (Block.mk (s0 :: rest) props children md) context parents
          = renderBlockContent st
              (if !strStartsWith context "@media screen" then s0
               else context ++ "and" ++ extractCondition s0)
              parents (Block.mk (s0 :: rest) props children md))
    ∧ (∀ (st : RenderState) (context : String) (parents : List String)
        (s0 : String) (rest : List String) (props : Option (List Property))
        (children : List Block) (md : Option Metadata),
        strStartsWith s0 "@media screen" = false →
        (strStartsWith s0 "@media" && strIncludes s0 "-color-scheme") = false →
        strStartsWith s0 "@" = true →
        strStartsWith context "@" = true →
        renderBlock st (Block.mk (s0 :: rest) props children md) context parents
          = .error (.rendering "Nested at-rules are not supported"
              (md.map Metadata.start)))
    ∧ (∀ (st : RenderState) (context : String) (parents : List String)
        (s0 : String) (rest : List String) (props : Option (List Property))
        (children : List Block) (md : Option Metadata),
        strStartsWith s0 "@media screen" = false →
        (strStartsWith s0 "@media" && strIncludes s0 "-color-scheme") = false →
        strStartsWith s0 "@" = true →
        strStartsWith context "@" = false →
        renderBlock st (Block.mk (s0 :: rest) props children md) context parents
          = renderBlockContent st s0 [] (Block.mk (s0 :: rest) props children md)) := by
  refine ⟨?_, ?_, ?_, ?_, ?_, ?_, ?_⟩
  · intro st context parents s0 rest props children md h1 h2
    rw [renderBlock.eq_def]
    simp only [Block.selectors, Block.metadata]
    rw [if_pos (by rw [h1]), if_pos (by rw [h2])]
  · intro st context parents s0 rest props children md h1 h2 h3
    rw [renderBlock.eq_def]
    simp only [Block.selectors, Block.metadata]
    rw [if_pos (by rw [h1]), if_neg (by rw [h2]; simp), if_pos (by rw [h3])]
  · intro st context parents s0 rest props children md h1 h2 h3
    rw [renderBlock.eq_def]
    simp only [Block.selectors]
    rw [if_pos (by rw [h1]), if_neg (by rw [h2]; simp), if_neg (by rw [h3]; simp)]
  · intro st context parents s0 rest props children md h1 h2 h3 h4
    rw [renderBlock.eq_def]
    simp only [Block.selectors, Block.metadata]
    rw [if_neg (by rw [h1]; simp), if_pos (by rw [h2, h3]; rfl), if_pos (by rw [h4])]
  · intro st context parents s0 rest props children md h1 h2 h3 h4
    rw [renderBlock.eq_def]
    simp only [Block.selectors]
    rw [if_neg (by rw [h1]; simp), if_pos (by rw [h2, h3]; rfl), if_neg (by rw [h4]; simp)]
  · intro st context parents s0 rest props children md h1 h2 h3 h4
    rw [renderBlock.eq_def]
    simp only [Block.selectors, Block.metadata]
    rw [if_neg (by rw [h1]; simp), if_neg (by rw [h2]; simp), if_pos (by rw [h3]),
      if_pos (by rw [h4])]
  · intro st context parents s0 rest props children md h1 h2 h3 h4
    rw [renderBlock.eq_def]
    simp only [Block.selectors]
    rw [if_neg (by rw [h1]; simp), if_neg (by rw [h2]; simp), if_pos (by rw [h3]),
      if_neg (by rw [h4]; simp)]

/-- Witness for C3: each rejection and acceptance rule at a concrete
block (at line 2, column 5) and context. -/
theorem claim_C3_witness :
    renderBlock ⟨[]⟩
        (Block.mk ["@media screen (max-width:400px)"] none [] (some ⟨⟨2, 5⟩, none⟩))
        "@media screen (min-width:600px)" []
      = .error (.rendering "Nested media queries are not supported" (some ⟨2, 5⟩))
    ∧ renderBlock ⟨[]⟩
        (Block.mk ["@media screen (max-width:400px)"] none [] (some ⟨⟨2, 5⟩, none⟩))
        "@media (prefers-color-scheme:dark)" []
      = .error (.rendering
          "Responsive media queries cannot be nested inside color scheme at-rules"
          (some ⟨2, 5⟩))
    ∧ renderBlock ⟨[]⟩
        (Block.mk ["@media screen (max-width:400px)"] none [] (some ⟨⟨2, 5⟩, none⟩))
        "root" []
      = renderBlockContent ⟨[]⟩ "@media screen (max-width:400px)" []
          (Block.mk ["@media screen (max-width:400px)"] none [] (some ⟨⟨2, 5⟩, none⟩))
    ∧ renderBlock ⟨[]⟩
        (Block.mk ["@media (prefers-color-scheme:dark)"] none [] (some ⟨⟨2, 5⟩, none⟩))
        "@media (prefers-color-scheme:light)" []
      = .error (.rendering "Nested color scheme at-rules are not supported" (some ⟨2, 5⟩))
    ∧ renderBlock ⟨[]⟩
        (Block.mk ["@font-face"] none [] (some ⟨⟨2, 5⟩, none⟩)) "@media x" []
      = .error (.rendering "Nested at-rules are not supported" (some ⟨2, 5⟩))
    ∧ renderBlock ⟨[]⟩
        (Block.mk ["@font-face"] none [] (some ⟨⟨2, 5⟩, none⟩)) "root" []
      = renderBlockContent ⟨[]⟩ "@font-face" []
          (Block.mk ["@font-face"] none [] (some ⟨⟨2, 5⟩, none⟩)) := by
  refine ⟨?_, ?_, ?_, ?_, ?_, ?_⟩
  · exact claim_C3_nesting_rejection.1 ⟨[]⟩ "@media screen (min-width:600px)" []
      "@media screen (max-width:400px)" [] none [] (some ⟨⟨2, 5⟩, none⟩)
      (by decide) (by decide)
  · exact claim_C3_nesting_rejection.2.1 ⟨[]⟩ "@media (prefers-color-scheme:dark)" []
      "@media screen (max-width:400px)" [] none [] (some ⟨⟨2, 5⟩, none⟩)
      (by decide) (by decide) (by decide)
  · exact claim_C3_nesting_rejection.2.2.1 ⟨[]⟩ "root" []
      "@media screen (max-width:400px)" [] none [] (some ⟨⟨2, 5⟩, none⟩)
      (by decide) (by decide) (by decide)
  · exact claim_C3_nesting_rejection.2.2.2.1 ⟨[]⟩ "@media (prefers-color-scheme:light)" []
      "@media (prefers-color-scheme:dark)" [] none [] (some ⟨⟨2, 5⟩, none⟩)
      (by decide) (by decide) (by decide) (by decide)
  · exact claim_C3_nesting_rejection.2.2.2.2.2.1 ⟨[]⟩ "@media x" []
      "@font-face" [] none [] (some ⟨⟨2, 5⟩, none⟩)
      (by decide) (by decide) (by decide) (by decide)
  · exact claim_C3_nesting_rejection.2.2.2.2.2.2 ⟨[]⟩ "root" []
      "@font-face" [] none [] (some ⟨⟨2, 5⟩, none⟩)
      (by decide) (by decide) (by decide) (by decide)

/-! ### Claims about the renderer: the color-scheme merge -/

theorem splitAtFirst_eq (c : Char) (pre suf : List Char) (h : c ∈ pre → False) :
    splitAtFirst c (pre ++ c :: suf) = some (pre, suf) := by
  induction pre with
  | nil => simp [splitAtFirst]
  | cons x xs ih =>
    rw [List.cons_append, splitAtFirst,
      if_neg (by simp; exact fun hc => h (by simp [hc]))]
    rw [ih (fun hc => h (by simp [hc]))]
    rfl

theorem contains_eq_false_of_not_mem (c : Char) (l : List Char) (h : c ∈ l → False) :
    l.contains c = false := by
  cases hv : l.contains c with
  | false => rfl
  | true => exact absurd (List.elem_iff.mp hv) h

theorem firstGroupOfPrelude_match (pre grp suf : List Char)
    (hpre_ne : pre ≠ []) (hpre : '(' ∈ pre → False)
    (hgrp_ne : grp ≠ []) (hgrp : ')' ∈ grp → False)
    (hsuf : ')' ∈ suf → False) :
    firstGroupOfPrelude (String.mk (pre ++ '(' :: (grp ++ ')' :: suf)))
      = some (String.mk ('(' :: (grp ++ [')']))) := by
  have hsplit1 : splitAtFirst '(' (pre ++ '(' :: (grp ++ ')' :: suf))
      = some (pre, grp ++ ')' :: suf) := splitAtFirst_eq _ _ _ hpre
  have hsplit2 : splitAtFirst ')' (grp ++ ')' :: suf) = some (grp, suf) :=
    splitAtFirst_eq _ _ _ hgrp
  have hcont : suf.contains ')' = false := contains_eq_false_of_not_mem _ _ hsuf
  have hpre_e : pre.isEmpty = false := by
    cases pre with
    | nil => exact absurd rfl hpre_ne
    | cons x xs => rfl
  have hgrp_e : grp.isEmpty = false := by
    cases grp with
    | nil => exact absurd rfl hgrp_ne
    | cons x xs => rfl
  rw [firstGroupOfPrelude]
  rw [show (String.mk (pre ++ '(' :: (grp ++ ')' :: suf))).data
      = pre ++ '(' :: (grp ++ ')' :: suf) from rfl]
  rw [hsplit1]
  simp only [hpre_e, hsplit2, hgrp_e, hcont]
  rfl

/-- C2 counterexample: the claim says the merged context name ends with
the *first* `(...)` group of the prelude, but for a color-scheme prelude
holding more than one parenthesised group the anchored pattern fails to
match and the implementation appends the entire prelude instead. -/
theorem claim_C2_counterexample :
    (renderBlock ⟨[]⟩
        (Block.mk ["@media (a:1) and (prefers-color-scheme:dark)"]
          (some [⟨"color", "red"⟩]) [] none)
        "@media screen (min-width:600px)" []).map (fun st => st.output.map Prod.fst)
      = .ok ["@media screen (min-width:600px)" ++ "and"
          ++ "@media (a:1) and (prefers-color-scheme:dark)"]
    ∧ "@media screen (min-width:600px)" ++ "and"
          ++ "@media (a:1) and (prefers-color-scheme:dark)"
        ≠ "@media screen (min-width:600px)" ++ "and" ++ "(a:1)" := by
  constructor
  · simp only [renderBlock.eq_def, renderBlockContent.eq_def, renderChildren.eq_def]
    decide
  · decide

/-- C2 amended: for a block whose first selector starts with `@media`,
contains `-color-scheme` and does not start with `@media screen`,
rendered while the context is not a color-scheme context: if the context
does not start with `@media screen` the content is rendered into a
context named by the block's prelude; otherwise into the merged context
`<context>and<condition>` with no surrounding whitespace, where the
condition is the prelude's parenthesised group whenever the prelude is a
non-empty `(`-free prefix, one non-empty `(...)` group and a `)`-free
suffix (for such preludes this is the first `(...)` group), and the
entire unchanged prelude whenever the prelude does not have that shape
(in particular when it holds a second parenthesised group). -/
theorem claim_C2_color_scheme_merge_amended :
    (∀ (st : RenderState) (context : String) (parents : List String)
        (s0 : String) (rest : List String) (props : Option (List Property))
        (children : List Block) (md : Option Metadata),
        strStartsWith s0 "@media screen" = false →
        strStartsWith s0 "@media" = true →
        strIncludes s0 "-color-scheme" = true →
        strIncludes context "-color-scheme" = false →
        strStartsWith context "@media screen" = false →
        renderBlock st (Block.mk (s0 :: rest) props children md) context parents
          = renderBlockContent st s0 parents (Block.mk (s0 :: rest) props children md))
    ∧ (∀ (st : RenderState) (context : String) (parents : List String)
        (s0 : String) (rest : List String) (props : Option (List Property))
        (children : List Block) (md : Option Metadata),
        strStartsWith s0 "@media screen" = false →
        strStartsWith s0 "@media" = true →
        strIncludes s0 "-color-scheme" = true →
        strIncludes context "-color-scheme" = false →
        strStartsWith context "@media screen" = true →
        renderBlock st (Block.mk (s0 :: rest) props children md) context parents
          = renderBlockContent st (context ++ "and" ++ extractCondition s0) parents
              (Block.mk (s0 :: rest) props children md))
    ∧ (∀ (pre grp suf : List Char),
        pre ≠ [] → ('(' ∈ pre → False) → grp ≠ [] → (')' ∈ grp → False) →
        (')' ∈ suf → False) →
        extractCondition (String.mk (pre ++ '(' :: (grp ++ ')' :: suf)))
          = String.mk ('(' :: (grp ++ [')'])))
    ∧ (∀ s : String, firstGroupOfPrelude s = none → extractCondition s = s) := by
  refine ⟨?_, ?_, ?_, ?_⟩
  · intro st context parents s0 rest props children md h1 h2 h3 h4 h5
    rw [renderBlock.eq_def]
    simp only [Block.selectors]
    rw [if_neg (by rw [h1]; simp), if_pos (by rw [h2, h3]; rfl), if_neg (by rw [h4]; simp)]
    rw [if_pos (by rw [h5]; rfl)]
  · intro st context parents s0 rest props children md h1 h2 h3 h4 h5
    rw [renderBlock.eq_def]
    simp only [Block.selectors]
    rw [if_neg (by rw [h1]; simp), if_pos (by rw [h2, h3]; rfl), if_neg (by rw [h4]; simp)]
    rw [if_neg (by rw [h5]; simp)]
  · intro pre grp suf h1 h2 h3 h4 h5
    rw [extractCondition, firstGroupOfPrelude_match pre grp suf h1 h2 h3 h4 h5]
    rfl
  · intro s h
    rw [extractCondition, h]
    rfl

/-- Witness for C2's amended statement: a single-group color-scheme
prelude merges with a `@media screen` context through its first group,
and renders into its own prelude context otherwise. -/
theorem claim_C2_witness :
    renderBlock ⟨[]⟩
        (Block.mk ["@media (prefers-color-scheme:dark)"] (some [⟨"color", "red"⟩]) [] none)
        "@media screen (min-width:600px)" []
      = renderBlockContent ⟨[]⟩
          ("@media screen (min-width:600px)" ++ "and"
            ++ extractCondition "@media (prefers-color-scheme:dark)") []
          (Block.mk ["@media (prefers-color-scheme:dark)"] (some [⟨"color", "red"⟩]) [] none)
    ∧ extractCondition "@media (prefers-color-scheme:dark)"
        = "(prefers-color-scheme:dark)"
    ∧ renderBlock ⟨[]⟩
        (Block.mk ["@media (prefers-color-scheme:dark)"] (some [⟨"color", "red"⟩]) [] none)
        "root" []
      = renderBlockContent ⟨[]⟩ "@media (prefers-color-scheme:dark)" []
          (Block.mk ["@media (prefers-color-scheme:dark)"] (some [⟨"color", "red"⟩]) [] none) := by
  refine ⟨?_, ?_, ?_⟩
  · exact claim_C2_color_scheme_merge_amended.2.1 ⟨[]⟩ "@media screen (min-width:600px)" []
      "@media (prefers-color-scheme:dark)" [] (some [⟨"color", "red"⟩]) [] none
      (by decide) (by decide) (by decide) (by decide) (by decide)
  · have h := claim_C2_color_scheme_merge_amended.2.2.1
      "@media ".data "prefers-color-scheme:dark".data []
      (by decide) (by decide) (by decide) (by decide) (by decide)
    simpa using h
  · exact claim_C2_color_scheme_merge_amended.1 ⟨[]⟩ "root" []
      "@media (prefers-color-scheme:dark)" [] (some [⟨"color", "red"⟩]) [] none
      (by decide) (by decide) (by decide) (by decide) (by decide)

/-! ### Claims about the renderer: output assembly -/

theorem map_fst_push (l : List (String × List String)) (ctx f : String) :
    (l.map fun g => if g.1 == ctx then (g.1, g.2 ++ [f]) else g).map Prod.fst
      = l.map Prod.fst := by
  induction l with
  | nil => rfl
  | cons g gs ih =>
    by_cases h : g.1 == ctx
    · simp only [List.map_cons, if_pos h, ih]
    · simp only [List.map_cons, if_neg h, ih]

theorem findContext_push_same (l : List (String × List String)) (ctx f : String) :
    findContext (l.map fun g => if g.1 == ctx then (g.1, g.2 ++ [f]) else g) ctx
      = (findContext l ctx).map (fun frags => frags ++ [f]) := by
  induction l with
  | nil => rfl
  | cons g gs ih =>
    by_cases h : g.1 == ctx
    · simp only [List.map_cons, if_pos h, findContext]
      rfl
    · simp only [List.map_cons, if_neg h, findContext]
      exact ih

theorem findContext_push_other (l : List (String × List String)) (ctx ctx2 f : String)
    (hne : ¬ (ctx2 == ctx) = true) :
    findContext (l.map fun g => if g.1 == ctx then (g.1, g.2 ++ [f]) else g) ctx2
      = findContext l ctx2 := by
  induction l with
  | nil => rfl
  | cons g gs ih =>
    by_cases h : g.1 == ctx
    · have h2 : ¬ (g.1 == ctx2) = true := by
        intro hc
        apply hne
        rw [beq_iff_eq] at h hc ⊢
        rw [← hc, h]
      simp only [List.map_cons, if_pos h, findContext]
      rw [if_neg h2, if_neg h2]
      exact ih
    · simp only [List.map_cons, if_neg h, findContext]
      by_cases h2 : g.1 == ctx2
      · rw [if_pos h2, if_pos h2]
      · rw [if_neg h2, if_neg h2]
        exact ih

/-- C7: the rendered output is assembled from the contexts in first-seen
order — a fresh context is appended at the end of the output list and a
fragment push never reorders the context names; the `root` context's
fragments are concatenated bare, every other non-empty context is
wrapped as `<context>{<fragments>}`, a context with no fragments
contributes nothing; and a block with at least one property contributes
exactly one fragment, of the form `<selectors joined by ','>{<key:value
pairs joined by ';'>}`, while a block without properties contributes
none. -/
theorem claim_C7_output_assembly :
    (∀ (tree : List Block) (st : RenderState), renderForest tree = .ok st →
        renderTreeToString tree
          = .ok (strJoin (st.output.map fun g => emitContext g.1 g.2)))
    ∧ (∀ ctx : String, emitContext ctx [] = "")
    ∧ (∀ fragments : List String, emitContext "root" fragments = strJoin fragments)
    ∧ (∀ (ctx : String) (fragments : List String), ctx ≠ "root" → fragments ≠ [] →
        emitContext ctx fragments = ctx ++ "\x7b" ++ strJoin fragments ++ "\x7d")
    ∧ (∀ (st : RenderState) (ctx : String), findContext st.output ctx = none →
        (ensureContext st ctx).output = st.output ++ [(ctx, [])])
    ∧ (∀ (st : RenderState) (ctx : String) (frags : List String),
        findContext st.output ctx = some frags → ensureContext st ctx = st)
    ∧ (∀ (st : RenderState) (ctx f : String),
        (pushFragment st ctx f).output.map Prod.fst = st.output.map Prod.fst)
    ∧ (∀ (st : RenderState) (ctx f : String),
        findContext (pushFragment st ctx f).output ctx
          = (findContext st.output ctx).map (fun frags => frags ++ [f]))
    ∧ (∀ (st : RenderState) (ctx ctx2 f : String), ctx2 ≠ ctx →
        findContext (pushFragment st ctx f).output ctx2 = findContext st.output ctx2)
    ∧ (∀ (st : RenderState) (context : String) (selectors : List String)
        (sels : List String) (ps : List Property) (children : List Block)
        (md : Option Metadata), ps ≠ [] →
        renderBlockContent st context selectors (Block.mk sels (some ps) children md)
          = renderChildren
              (pushFragment (ensureContext st context) context
                (strIntercalate "," selectors ++ "\x7b"
                  ++ strIntercalate ";" (ps.map fun p => p.key ++ ":" ++ p.value) ++ "\x7d"))
              children context selectors)
    ∧ (∀ (st : RenderState) (context : String) (selectors : List String)
        (sels : List String) (children : List Block) (md : Option Metadata),
        renderBlockContent st context selectors (Block.mk sels none children md)
          = renderChildren (ensureContext st context) children context selectors) := by
  refine ⟨?_, ?_, ?_, ?_, ?_, ?_, ?_, ?_, ?_, ?_, ?_⟩
  · intro tree st h
    simp only [renderTreeToString]
    rw [h]
  · intro ctx
    rfl
  · intro fragments
    cases fragments with
    | nil => rfl
    | cons f fs => simp [emitContext]
  · intro ctx fragments h1 h2
    rw [emitContext]
    rw [if_neg (by cases fragments with | nil => exact absurd rfl h2 | cons f fs => simp)]
    rw [if_neg (by simp [h1])]
  · intro st ctx h
    rw [ensureContext, h]
  · intro st ctx frags h
    rw [ensureContext, h]
  · intro st ctx f
    exact map_fst_push st.output ctx f
  · intro st ctx f
    exact findContext_push_same st.output ctx f
  · intro st ctx ctx2 f h
    exact findContext_push_other st.output ctx ctx2 f (by simp [h])
  · intro st context selectors sels ps children md h
    have hl : ((some ps).getD []).length > 0 := by
      cases ps with
      | nil => exact absurd rfl h
      | cons p pr => simp
    have heq : renderBlockContent st context selectors (Block.mk sels (some ps) children md)
        = renderChildren
            (if ((some ps).getD []).length > 0 then
              pushFragment (ensureContext st context) context
                (strIntercalate "," selectors ++ "\x7b"
                  ++ renderProperties ((some ps).getD []) ++ "\x7d")
            else ensureContext st context)
            children context selectors := by
      rw [renderBlockContent.eq_def]
    rw [heq, if_pos hl]
    rfl
  · intro st context selectors sels children md
    have heq : renderBlockContent st context selectors (Block.mk sels none children md)
        = renderChildren
            (if ((none : Option (List Property)).getD []).length > 0 then
              pushFragment (ensureContext st context) context
                (strIntercalate "," selectors ++ "\x7b"
                  ++ renderProperties ((none : Option (List Property)).getD []) ++ "\x7d")
            else ensureContext st context)
            children context selectors := by
      rw [renderBlockContent.eq_def]
    rw [heq, if_neg (by simp)]

/-- Witness for C7: a one-block tree renders to a single root-context
fragment, and a non-root context is wrapped in its name. -/
theorem claim_C7_witness :
    renderTreeToString [Block.mk [".a"] (some [⟨"color", "red"⟩]) [] none]
      = .ok ".a\x7bcolor:red\x7d"
    ∧ emitContext "@media x" ["f"] = "@media x" ++ "\x7b" ++ "f" ++ "\x7d"
    ∧ renderBlockContent ⟨[]⟩ "root" [".a"]
        (Block.mk [".a"] (some [⟨"color", "red"⟩]) [] none)
      = renderChildren
          (pushFragment (ensureContext ⟨[]⟩ "root") "root"
            (strIntercalate "," [".a"] ++ "\x7b"
              ++ strIntercalate ";" ([(⟨"color", "red"⟩ : Property)].map
                  fun p => p.key ++ ":" ++ p.value) ++ "\x7d"))
          [] "root" [".a"] := by
  refine ⟨?_, ?_, ?_⟩
  · have h0 : renderForest [Block.mk [".a"] (some [⟨"color", "red"⟩]) [] none]
        = .ok ⟨[("root", [".a\x7bcolor:red\x7d"])]⟩ := by
      simp only [renderForest, renderChildren.eq_def, renderBlock.eq_def,
        renderBlockContent.eq_def]
      decide
    rw [claim_C7_output_assembly.1 _ _ h0]
    rfl
  · exact claim_C7_output_assembly.2.2.2.1 "@media x" ["f"] (by decide) (by decide)
  · exact claim_C7_output_assembly.2.2.2.2.2.2.2.2.2.1 ⟨[]⟩ "root" [".a"] [".a"]
      [⟨"color", "red"⟩] [] none (by decide)

/-! ### Claims about the renderer: the unguarded selector access -/

mutual

/-- Every block of the subtree, transitively, has at least one selector. -/
def selectorsPresent : Block → Bool
  | .mk sels _ children _ => !sels.isEmpty && selectorsPresentAll children

/-- `selectorsPresent` over a forest. -/
def selectorsPresentAll : List Block → Bool
  | [] => true
  | b :: bs => selectorsPresent b && selectorsPresentAll bs

end

/-- Distinguishes the runtime TypeError of the unguarded
`block.selectors[0]` access from a `RenderingError`. -/
def RenderErr.isTypeErr : RenderErr → Bool
  | .typeError _ => true
  | .rendering _ _ => false

theorem render_no_typeError (n : Nat) :
    (∀ (st : RenderState) (b : Block) (context : String) (parents : List String),
        sizeOf b ≤ n → selectorsPresent b = true →
        ∀ e, renderBlock st b context parents = .error e → e.isTypeErr = false)
    ∧ (∀ (st : RenderState) (context : String) (selectors : List String) (b : Block),
        sizeOf b ≤ n → selectorsPresentAll b.children = true →
        ∀ e, renderBlockContent st context selectors b = .error e → e.isTypeErr = false)
    ∧ (∀ (st : RenderState) (bs : List Block) (context : String) (selectors : List String),
        sizeOf bs ≤ n → selectorsPresentAll bs = true →
        ∀ e, renderChildren st bs context selectors = .error e → e.isTypeErr = false) := by
  induction n using Nat.strong_induction_on with
  | _ n ih =>
    have hR : ∀ (st : RenderState) (bs : List Block) (context : String)
        (selectors : List String), sizeOf bs ≤ n → selectorsPresentAll bs = true →
        ∀ e, renderChildren st bs context selectors = .error e → e.isTypeErr = false := by
      intro st bs context selectors hsz hsel e herr
      cases bs with
      | nil =>
        rw [renderChildren.eq_def] at herr
        exact Except.noConfusion herr
      | cons b rest =>
        rw [renderChildren.eq_def] at herr
        simp only [selectorsPresentAll, Bool.and_eq_true] at hsel
        simp only [List.cons.sizeOf_spec] at hsz
        replace herr : (match renderBlock st b context selectors with
            | Except.error e3 => Except.error e3
            | Except.ok st2 => renderChildren st2 rest context selectors)
            = Except.error e := herr
        cases hrb : renderBlock st b context selectors with
        | error e2 =>
          rw [hrb] at herr
          injection herr with he
          subst he
          exact (ih (sizeOf b) (by omega)).1 st b context selectors
            (Nat.le_refl _) hsel.1 e2 hrb
        | ok st2 =>
          rw [hrb] at herr
          exact (ih (sizeOf rest) (by omega)).2.2 st2 rest context selectors
            (Nat.le_refl _) hsel.2 e herr
    have hQ : ∀ (st : RenderState) (context : String) (selectors : List String)
        (b : Block), sizeOf b ≤ n → selectorsPresentAll b.children = true →
        ∀ e, renderBlockContent st context selectors b = .error e →
        e.isTypeErr = false := by
      intro st context selectors b hsz hsel e herr
      cases b with
      | mk sels props children md =>
        rw [renderBlockContent.eq_def] at herr
        simp only [Block.children] at hsel
        simp only [Block.mk.sizeOf_spec] at hsz
        exact hR _ children context selectors (by omega) hsel e herr
    refine ⟨?_, hQ, hR⟩
    intro st b context parents hsz hsel e herr
    cases b with
    | mk sels props children md =>
      cases sels with
      | nil => simp [selectorsPresent] at hsel
      | cons s0 srest =>
        rw [renderBlock.eq_def] at herr
        simp only [Block.selectors] at herr
        simp only [selectorsPresent, Bool.and_eq_true] at hsel
        split at herr
        · split at herr
          · injection herr with he
            subst he
            rfl
          · split at herr
            · injection herr with he
              subst he
              rfl
            · exact hQ _ _ _ _ hsz hsel.2 e herr
        · split at herr
          · split at herr
            · injection herr with he
              subst he
              rfl
            · exact hQ _ _ _ _ hsz hsel.2 e herr
          · split at herr
            · split at herr
              · injection herr with he
                subst he
                rfl
              · exact hQ _ _ _ _ hsz hsel.2 e herr
            · exact hQ _ _ _ _ hsz hsel.2 e herr

/-- C10: `renderBlock` reads the first selector with no emptiness guard:
on every block whose subtree has only non-empty selector lists the
access is well-defined (any failure is a `RenderingError`, never the
TypeError), while a block whose selector list was emptied fails with the
TypeError of reading a property of `undefined`, which is not a
`RenderingError`. -/
theorem claim_C10_unguarded_selector_access :
    (∀ (st : RenderState) (b : Block) (context : String) (parents : List String),
        selectorsPresent b = true →
        ∀ e, renderBlock st b context parents = .error e → e.isTypeErr = false)
    ∧ renderBlock ⟨[]⟩ (Block.mk [] none [] none) "root" []
        = .error (.typeError "Cannot read properties of undefined (reading startsWith)")
    ∧ (∀ (m msg : String) (pos : Option Pos),
        RenderErr.typeError m ≠ RenderErr.rendering msg pos) := by
  refine ⟨?_, ?_, ?_⟩
  · intro st b context parents hsel e herr
    exact (render_no_typeError (sizeOf b)).1 st b context parents (Nat.le_refl _) hsel e herr
  · rw [renderBlock.eq_def]
    rfl
  · intro m msg pos h
    exact RenderErr.noConfusion h

/-- Witness for C10: a concrete rejected block with non-empty selectors
fails with a `RenderingError`, not the TypeError. -/
theorem claim_C10_witness :
    (RenderErr.rendering "Nested media queries are not supported" none).isTypeErr
      = false := by
  exact claim_C10_unguarded_selector_access.1 ⟨[]⟩
    (Block.mk ["@media screen x"] none [] none) "@media screen (min-width:600px)" []
    (by decide)
    (.rendering "Nested media queries are not supported" none)
    (by rw [renderBlock.eq_def]; decide)

end StileCss
